import Mathlib

/-!
# Verification of the hybrid job-search core

A shallow embedding, in Lean 4, of the hybrid search subsystem of the
HYBRID-JOB-APPLICATION-SYSTEM repository:

* `backend/search_engine.py` and `backend/services/search_engine.py`
  (the two hybrid-search orchestrators),
* `backend/ai_service.py` and `backend/services/ai_service.py`
  (the Gemini query parsers),
* `backend/mysql_db.py` (`search_jobs`, `search_candidates`,
  `get_jobs_by_ids`, `get_candidates_by_ids`),
* `backend/vector_service.py` / `backend/services/vector_service.py`
  (`add_to_collection`), and `backend/sync_db.py` (`sync_candidates`).

External collaborators (the Gemini language model, the ChromaDB vector
index, the MySQL server) are modelled as explicit parameters holding the
outcome they would produce for the single call the orchestrator makes to
them: an `Except Unit` value stands for "returned normally / raised".
Python `dict`s produced by `json.loads` are modelled by the `JVal` type
below, and Python-level behaviours that matter to the claims (truthiness,
`str.replace`, `str.isdigit`, `int(...)`, exception propagation) are
embedded by functions that mirror them.
-/

set_option maxRecDepth 10000

namespace HybridSearch

/-! ## Python string helpers -/

/-- `leadsWith pat s` is true when `pat` is an initial segment of `s`
(character-by-character comparison). -/
def leadsWith : List Char → List Char → Bool
  | [], _ => true
  | _ :: _, [] => false
  | a :: as, b :: bs => a == b && leadsWith as bs

/-- `hasSub pat s` is true when `pat` occurs contiguously somewhere in `s`.
Used to model SQL `LIKE '%pat%'` and Python `in` on strings. -/
def hasSub (pat : List Char) : List Char → Bool
  | [] => leadsWith pat []
  | c :: rest => leadsWith pat (c :: rest) || hasSub pat rest

/-- One fuel-indexed scan step of Python `s.replace(old, new)`: replaces
every non-overlapping occurrence of `old`, scanning left to right.  Each
step consumes at least one character, so fuel equal to the input length
suffices; the fuel keeps the recursion structural (kernel-reducible). -/
def pyReplaceAux (old new : List Char) : Nat → List Char → List Char
  | 0, s => s
  | _ + 1, [] => []
  | fuel + 1, c :: rest =>
    if old.isEmpty then c :: rest
    else if leadsWith old (c :: rest) then
      new ++ pyReplaceAux old new fuel ((c :: rest).drop old.length)
    else
      c :: pyReplaceAux old new fuel rest

/-- Python `s.replace(old, new)` on character lists.  The Python code under
verification only ever calls it with a non-empty `old`; for `old = []` the
input is returned unchanged. -/
def pyReplaceL (old new s : List Char) : List Char :=
  pyReplaceAux old new s.length s

/-- Python `str.replace` on `String`s. -/
def pyReplace (s old new : String) : String :=
  String.mk (pyReplaceL old.data new.data s.data)

/-- A character Python's `str.strip()` removes (ASCII whitespace model). -/
def isPyWs (c : Char) : Bool :=
  c == ' ' || c == '\n' || c == '\t' || c == '\r'

/-- Python `s.strip()`: drop whitespace from both ends. -/
def pyStrip (s : String) : String :=
  String.mk (((s.data.dropWhile isPyWs).reverse.dropWhile isPyWs).reverse)

/-- ASCII lowercasing of a character list (Python `str.lower` / the MySQL
collation's case folding). -/
def lowerL (l : List Char) : List Char :=
  l.map Char.toLower

/-- One fuel-indexed step of MySQL `LIKE` pattern matching: `%` matches any
(possibly empty) character sequence, `_` matches exactly one character, and
any other pattern character matches itself.  Every recursive call shortens
the pattern or the string, so fuel equal to their combined length suffices;
the fuel keeps the recursion structural (kernel-reducible). -/
def likeMatchAux : Nat → List Char → List Char → Bool
  | 0, p, s => p.isEmpty && s.isEmpty
  | fuel + 1, p, s =>
    match p with
    | [] => s.isEmpty
    | a :: ps =>
      if a = '%' then
        likeMatchAux fuel ps s
          || (match s with
              | [] => false
              | _ :: rest => likeMatchAux fuel (a :: ps) rest)
      else
        match s with
        | [] => false
        | c :: rest => (if a = '_' then true else a == c) && likeMatchAux fuel ps rest

/-- MySQL `LIKE`: does `s` match the pattern `pat`? -/
def likeMatch (pat s : List Char) : Bool :=
  likeMatchAux (pat.length + s.length) pat s

/-- MySQL `column LIKE %s` with the parameter bound to `f"%{pat}%"`, under
the default case-insensitive collation.  The filter value is interpolated
into the pattern, so a `%` or `_` inside it remains a live wildcard (e.g.
the filter `scikit_learn` LIKE-matches `scikit-learn`).  The `ESCAPE`
character `\` is not modelled (pattern characters other than `%` and `_`
match literally here); the C6 characterization below therefore restricts
its substring reading to filters containing none of `%`, `_`, `\`. -/
def sqlLike (hay pat : String) : Bool :=
  likeMatch ('%' :: (lowerL pat.data ++ ['%'])) (lowerL hay.data)

/-- The filter value contains none of the characters that are special
inside a MySQL LIKE pattern: the wildcards `%` and `_` and the escape
character `\`.  For such filters `LIKE '%filter%'` is exactly
case-insensitive substring containment. -/
def likePlain (s : String) : Bool :=
  s.data.all (fun c => !(c == '%') && !(c == '_') && !(c == '\\'))

/-- Python `s.isdigit()` restricted to ASCII: non-empty and all decimal
digits. -/
def strIsDigit (s : String) : Bool :=
  !s.data.isEmpty && s.data.all Char.isDigit

/-- Decimal value of a digit string. -/
def digitsVal (l : List Char) : Nat :=
  l.foldl (fun a c => a * 10 + (c.toNat - 48)) 0

/-- Python `int(s)` for a digit-only string (the only strings the services
orchestrator converts, having filtered with `isdigit`). -/
def strToInt (s : String) : Int :=
  Int.ofNat (digitsVal s.data)

/-- Python `int(s)`: optional surrounding whitespace, an optional sign, then
one or more decimal digits; anything else raises `ValueError` (`none`).
(Underscore digit grouping is not modelled; no input of interest uses it.) -/
def pyIntParse (s : String) : Option Int :=
  let t := (s.data.dropWhile isPyWs).reverse.dropWhile isPyWs |>.reverse
  match t with
  | '-' :: ds =>
    if !ds.isEmpty && ds.all Char.isDigit then some (-(Int.ofNat (digitsVal ds))) else none
  | '+' :: ds =>
    if !ds.isEmpty && ds.all Char.isDigit then some (Int.ofNat (digitsVal ds)) else none
  | ds =>
    if !ds.isEmpty && ds.all Char.isDigit then some (Int.ofNat (digitsVal ds)) else none

/-! ## JSON values and `json.loads`

`JVal` models the Python values `json.loads` can return (dicts become
association lists in document order).  The parser below models CPython's
`json.loads` on the JSON fragment exercised by this system: `null`,
booleans, integer numerals (floats are rejected — no value in the
query-parser contract is fractional), strings with the basic escapes,
arrays and objects, with arbitrary nesting and surrounding whitespace.
A string that `json.loads` would reject raises `json.JSONDecodeError`,
modelled as `none`. -/

/-- A Python value produced by `json.loads`. -/
inductive JVal where
  | jnull
  | jbool (b : Bool)
  | jint (n : Int)
  | jstr (s : String)
  | jarr (xs : List JVal)
  | jobj (fields : List (String × JVal))

/-- Skip JSON whitespace. -/
def skipWs (l : List Char) : List Char :=
  l.dropWhile isPyWs

/-- Parse a JSON string body (after the opening quote), returning the string
and the remaining input (after the closing quote).  Handles the one-character
escapes; `\uXXXX` escapes are not modelled (no input of interest uses them). -/
def parseStringBody : List Char → Option (List Char × List Char)
  | [] => none
  | '"' :: rest => some ([], rest)
  | '\\' :: e :: rest =>
    let esc : Option Char :=
      if e = '"' then some '"'
      else if e = '\\' then some '\\'
      else if e = '/' then some '/'
      else if e = 'n' then some '\n'
      else if e = 't' then some '\t'
      else if e = 'r' then some '\r'
      else none
    match esc with
    | none => none
    | some c =>
      match parseStringBody rest with
      | some (s, rem) => some (c :: s, rem)
      | none => none
  | '\\' :: [] => none
  | c :: rest =>
    match parseStringBody rest with
    | some (s, rem) => some (c :: s, rem)
    | none => none

/-- Parse an integer numeral (optional minus, digits). -/
def parseNumber (l : List Char) : Option (Int × List Char) :=
  match l with
  | '-' :: rest =>
    let ds := rest.takeWhile Char.isDigit
    if ds.isEmpty then none
    else some (-(Int.ofNat (digitsVal ds)), rest.dropWhile Char.isDigit)
  | _ =>
    let ds := l.takeWhile Char.isDigit
    if ds.isEmpty then none
    else some (Int.ofNat (digitsVal ds), l.dropWhile Char.isDigit)

mutual

/-- Fuel-indexed JSON value parser. -/
def parseVal : Nat → List Char → Option (JVal × List Char)
  | 0, _ => none
  | fuel + 1, input =>
    match skipWs input with
    | [] => none
    | c :: rest =>
      if c = 'n' then
        if leadsWith ['u', 'l', 'l'] rest then some (JVal.jnull, rest.drop 3) else none
      else if c = 't' then
        if leadsWith ['r', 'u', 'e'] rest then some (JVal.jbool true, rest.drop 3) else none
      else if c = 'f' then
        if leadsWith ['a', 'l', 's', 'e'] rest then some (JVal.jbool false, rest.drop 4) else none
      else if c = '"' then
        match parseStringBody rest with
        | some (s, rem) => some (JVal.jstr (String.mk s), rem)
        | none => none
      else if c = '[' then
        match skipWs rest with
        | ']' :: rem => some (JVal.jarr [], rem)
        | other =>
          match parseArrItems fuel other with
          | some (xs, rem) => some (JVal.jarr xs, rem)
          | none => none
      else if c = '\x7b' then
        match skipWs rest with
        | '\x7d' :: rem => some (JVal.jobj [], rem)
        | other =>
          match parseObjItems fuel other with
          | some (fs, rem) => some (JVal.jobj fs, rem)
          | none => none
      else
        match parseNumber (c :: rest) with
        | some (n, rem) => some (JVal.jint n, rem)
        | none => none

/-- Parse one or more comma-separated array items, then the closing bracket. -/
def parseArrItems : Nat → List Char → Option (List JVal × List Char)
  | 0, _ => none
  | fuel + 1, input =>
    match parseVal fuel input with
    | none => none
    | some (v, rem) =>
      match skipWs rem with
      | ',' :: rest =>
        match parseArrItems fuel rest with
        | some (xs, rem2) => some (v :: xs, rem2)
        | none => none
      | ']' :: rest => some ([v], rest)
      | _ => none

/-- Parse one or more comma-separated `"key": value` members, then the
closing brace. -/
def parseObjItems : Nat → List Char → Option (List (String × JVal) × List Char)
  | 0, _ => none
  | fuel + 1, input =>
    match skipWs input with
    | '"' :: rest =>
      match parseStringBody rest with
      | none => none
      | some (k, rem) =>
        match skipWs rem with
        | ':' :: rest2 =>
          match parseVal fuel rest2 with
          | none => none
          | some (v, rem2) =>
            match skipWs rem2 with
            | ',' :: rest3 =>
              match parseObjItems fuel rest3 with
              | some (fs, rem3) => some ((String.mk k, v) :: fs, rem3)
              | none => none
            | '\x7d' :: rest3 => some ([(String.mk k, v)], rest3)
            | _ => none
        | _ => none
    | _ => none

end

/-- Python `json.loads`: parse a complete JSON document; trailing content
other than whitespace is an error. -/
def json_loads (s : String) : Option JVal :=
  match parseVal (2 * s.data.length + 2) s.data with
  | some (v, rem) => if (skipWs rem).isEmpty then some v else none
  | none => none

/-- Python `dict.get(k)` on a parsed JSON object: the value of the last
binding of `k` (later duplicate keys overwrite earlier ones in a Python
dict), or `none` when the key is missing. -/
def objGet (fields : List (String × JVal)) (k : String) : Option JVal :=
  (fields.reverse.find? (fun p => p.1 == k)).map (fun p => p.2)

/-- Python truthiness of `parsed_query.get(k)`: `None`, `null`, `False`,
`0`, `""`, `[]` and `{}` are falsy. -/
def pyTruthy : Option JVal → Bool
  | none => false
  | some JVal.jnull => false
  | some (JVal.jbool b) => b
  | some (JVal.jint n) => n != 0
  | some (JVal.jstr s) => !s.data.isEmpty
  | some (JVal.jarr xs) => !xs.isEmpty
  | some (JVal.jobj fs) => !fs.isEmpty

/-- Python `str(v)` for the scalar values that can appear in parsed-query
fields (the approximation for composites is irrelevant to every claim:
no claim exercises a composite in a scalar position). -/
def pyStr : JVal → String
  | JVal.jnull => "None"
  | JVal.jbool true => "True"
  | JVal.jbool false => "False"
  | JVal.jint n => toString n
  | JVal.jstr s => s
  | JVal.jarr _ => "[...]"
  | JVal.jobj _ => "\x7b...\x7d"

/-! ## Relational store rows (`backend/mysql_db.py` schema) -/

/-- A row of the `jobs` table.  `minSalary`/`maxSalary` are `VARCHAR(50)`
columns that the search query compares numerically (MySQL coerces the
stored string when compared with an integer parameter), so they are
modelled by their numeric value. -/
structure Job where
  id : Int
  recruiter_id : Int
  title : String
  location : String
  employmentType : String
  description : String
  skills : String
  minSalary : Int
  maxSalary : Int
deriving DecidableEq, Repr

/-- A row of the `users` table (`skills` is a JSON array of strings). -/
structure User where
  id : Int
  email : String
  user_type : String
  name : String
  phone : String
  company : String
  location : String
  experience_level : String
  education : String
  skills : List String
deriving DecidableEq, Repr

/-! ## `backend/mysql_db.py` search functions

The MySQL table is modelled as the list of its rows in table order;
`SELECT ... WHERE p` returns the rows satisfying `p` in that order.
Each `if filter:` guard in the Python code adds its SQL conjunct only
when the filter value is truthy, which the embeddings mirror exactly. -/

/-- `search_jobs(location, salary, experience, skills, job_type)`:
`SELECT * FROM jobs WHERE 1=1` plus one `AND` conjunct per truthy filter. -/
def search_jobs (db : List Job) (location : Option String) (salary : Option Int)
    (experience : Option Int) (skills : Option (List String))
    (job_type : Option String) : List Job :=
  db.filter (fun j =>
    (match location with
     | none => true
     | some l => if l.data.isEmpty then true else sqlLike j.location l)
    && (match salary with
        | none => true
        | some s => if s == 0 then true else (decide (s ≤ j.minSalary) || decide (s ≤ j.maxSalary)))
    && (match experience with
        | none => true
        | some e => if e == 0 then true else sqlLike j.description (toString e ++ " years"))
    && (match skills with
        | none => true
        | some sk => if sk.isEmpty then true else sk.all (fun s => sqlLike j.skills s))
    && (match job_type with
        | none => true
        | some t => if t.data.isEmpty then true else sqlLike j.employmentType t))

/-- `search_candidates(location, skills)`:
`SELECT * FROM users WHERE user_type = 'jobseeker'` plus one conjunct per
truthy filter; `JSON_CONTAINS(skills, '"s"')` is an exact membership test
in the stored JSON array. -/
def search_candidates (db : List User) (location : Option String)
    (skills : Option (List String)) : List User :=
  db.filter (fun u =>
    u.user_type == "jobseeker"
    && (match location with
        | none => true
        | some l => if l.data.isEmpty then true else sqlLike u.location l)
    && (match skills with
        | none => true
        | some sk => if sk.isEmpty then true else sk.all (fun s => u.skills.contains s)))

/-- `get_jobs_by_ids(ids)`: `SELECT * FROM jobs WHERE id IN (ids)` — rows
come back in table order, not in the order of `ids`.  With an empty id
list the interpolated SQL is malformed, the error is caught and `[]` is
returned. -/
def get_jobs_by_ids (db : List Job) (ids : List Int) : List Job :=
  if ids.isEmpty then [] else db.filter (fun j => ids.contains j.id)

/-- `get_candidates_by_ids(ids)`: same shape over the `users` table. -/
def get_candidates_by_ids (db : List User) (ids : List Int) : List User :=
  if ids.isEmpty then [] else db.filter (fun u => ids.contains u.id)

/-! ## Vector service (`vector_service.py`, both copies) -/

/-- One entry of a ChromaDB collection. -/
structure VectorRecord where
  id : String
  embedding : List Int
  document : String
  metadata : List (String × String)
deriving DecidableEq, Repr

/-- ChromaDB `collection.add` with a single id: if the id is already
present, the duplicate is rejected — chroma logs
"Insert of existing embedding ID" and keeps the stored record in the
versions this repository targets (newer versions raise a duplicate-id
error instead); in no version does `add` overwrite the existing record.
`collection.upsert`, which the code does not call, is what replaces. -/
def chromaAdd (col : List VectorRecord) (r : VectorRecord) : List VectorRecord :=
  if col.any (fun x => x.id == r.id) then col else col ++ [r]

/-- `add_to_collection(collection, doc_id, document, metadata)`: embeds the
document text and calls `collection.add` with the singleton batch.  The
embedding provider is the `embed` parameter (a pure function of the text,
per the sentence-transformers model contract). -/
def add_to_collection (embed : String → List Int) (col : List VectorRecord)
    (doc_id document : String) (metadata : List (String × String)) : List VectorRecord :=
  chromaAdd col ⟨doc_id, embed document, document, metadata⟩

/-- The reply of `collection.query(query_embeddings=[e], n_results=k)`:
`reply['ids']` is a list holding one inner list of string ids per query
embedding, nearest first. -/
structure VectorReply where
  ids : List (List String)
deriving DecidableEq, Repr

/-! ## `backend/sync_db.py` -/

/-- The embedded document text built for one candidate in
`sync_candidates` (f-string over name/location/experience/education plus
the comma-joined skills). -/
def candidateDocument (u : User) : String :=
  "Name: " ++ u.name ++ "\nLocation: " ++ u.location ++ "\nExperience: "
    ++ u.experience_level ++ "\nEducation: " ++ u.education ++ "\nSkills: "
    ++ String.intercalate ", " u.skills

/-- The metadata dict built for one candidate (`None` values already
replaced by `""` in the model's string fields). -/
def candidateMetadata (u : User) : List (String × String) :=
  [("email", u.email), ("user_type", u.user_type), ("name", u.name),
   ("phone", u.phone), ("company", u.company), ("location", u.location),
   ("experience_level", u.experience_level), ("education", u.education)]

/-- `sync_candidates()`: reads all users, keeps the jobseekers, and adds
each one's profile document to the candidate collection keyed by
`str(candidate['id'])`. -/
def sync_candidates (embed : String → List Int) (usersDb : List User)
    (col : List VectorRecord) : List VectorRecord :=
  (usersDb.filter (fun c => c.user_type == "jobseeker")).foldl
    (fun acc c =>
      add_to_collection embed acc (toString c.id) (candidateDocument c) (candidateMetadata c))
    col

/-! ## Query parsing stage of the two orchestrators -/

/-- The fallback dict `{"semantic_query": query}` both orchestrators build
when the try-block around the JSON decoding fails. -/
def simpleFallback (query : String) : JVal :=
  JVal.jobj [("semantic_query", JVal.jstr query)]

/-- The fallback dict `services/ai_service.py` returns from its own
`except` handler (all structured fields explicitly null / empty). -/
def fullFallback (query : String) : JVal :=
  JVal.jobj [("location", JVal.jnull), ("salary", JVal.jnull),
    ("experience", JVal.jnull), ("skills", JVal.jarr []),
    ("job_type", JVal.jnull), ("semantic_query", JVal.jstr query)]

/-- The markdown-fence stripping in `backend/search_engine.py`:
`parsed_query_str.replace("```json", "").replace("```", "")`. -/
def cleanResponse (s : String) : String :=
  pyReplace (pyReplace s "```json" "") "```" ""

/-- The services variant additionally calls `.strip()`. -/
def cleanStrip (s : String) : String :=
  pyStrip (cleanResponse s)

/-- `backend/ai_service.py::parse_query`: sends the prompt and returns
`response.text`; it has no exception handler, so an API/network error from
`model.generate_content` propagates to the caller. -/
def backendParseQuery (llm : Except Unit String) : Except Unit String :=
  llm

/-- `services/ai_service.py::parse_query`: sends the prompt and parses
`response.text` with `json.loads`, returning the resulting Python value;
any exception (API error, malformed JSON) is caught and the full fallback
dict is returned. -/
def servicesParseQuery (query : String) (llm : Except Unit String) : JVal :=
  match llm with
  | Except.error _ => fullFallback query
  | Except.ok txt =>
    match json_loads txt with
    | some v => v
    | none => fullFallback query

/-- The parsing stage of `backend/search_engine.py::search` applied to the
model's response text: strip fences, `json.loads`, and on
`json.JSONDecodeError` fall back to `{"semantic_query": query}`. -/
def effectiveParsedBackend (query txt : String) : JVal :=
  match json_loads (cleanResponse txt) with
  | some v => v
  | none => simpleFallback query

/-- The parsing stage of `services/search_engine.py::search`: it treats the
value returned by `parse_query` as a string, so `.replace` raises
`AttributeError` unless `parse_query` produced a `str` (a double-encoded
JSON response); both `AttributeError` and `json.JSONDecodeError` are caught
by the surrounding `except`, yielding `{"semantic_query": query}`. -/
def effectiveParsedServices (query : String) (llm : Except Unit String) : JVal :=
  match servicesParseQuery query llm with
  | JVal.jstr s =>
    match json_loads (cleanStrip s) with
    | some v => v
    | none => simpleFallback query
  | _ => simpleFallback query

/-! ## Parsed-query field extraction

`parsed_query.get(k)` is passed to the SQL layer; the embeddings extract
the value when it has the type the query-parser contract specifies
(string / integer / list), matching Python for every well-typed value and
for absent/null values. -/

/-- String-typed field of a parsed query dict. -/
def getStrF (fields : List (String × JVal)) (k : String) : Option String :=
  match objGet fields k with
  | some (JVal.jstr s) => some s
  | _ => none

/-- Integer-typed field of a parsed query dict. -/
def getIntF (fields : List (String × JVal)) (k : String) : Option Int :=
  match objGet fields k with
  | some (JVal.jint n) => some n
  | _ => none

/-- List-typed field of a parsed query dict; elements are rendered with
`str` as the f-string interpolation in `search_jobs` does. -/
def getListF (fields : List (String × JVal)) (k : String) : Option (List String) :=
  match objGet fields k with
  | some (JVal.jarr xs) => some (xs.map pyStr)
  | _ => none

/-- The structured-search call both job orchestrators make
(step 2 of `search` for `search_type == "jobs"`). -/
def sqlJobsFor (fields : List (String × JVal)) (db : List Job) : List Job :=
  search_jobs db (getStrF fields "location") (getIntF fields "salary")
    (getIntF fields "experience") (getListF fields "skills") (getStrF fields "job_type")

/-- The structured-search call both candidate orchestrators make. -/
def sqlCandsFor (fields : List (String × JVal)) (db : List User) : List User :=
  search_candidates db (getStrF fields "location") (getListF fields "skills")

/-! ## Merge step (step 4 of `search`) -/

/-- The services merge loop: append each vector doc whose id is not in
`seen` (the `combined_ids` set), updating the set as it goes. -/
def addNonDup (getId : α → Int) (seen : List Int) : List α → List α
  | [] => []
  | d :: rest =>
    if seen.contains (getId d) then addNonDup getId seen rest
    else d :: addNonDup getId (getId d :: seen) rest

/-- `services/search_engine.py` merge: start from the SQL results, seed
`combined_ids` with their ids, then run the append loop. -/
def mergeById (getId : α → Int) (sql docs : List α) : List α :=
  sql ++ addNonDup getId (sql.map getId) docs

/-- `backend/search_engine.py` merge: append each vector doc not already
present in the (growing) combined list, comparing whole rows
(`if doc not in combined_results`). -/
def mergeByDoc [BEq α] (acc : List α) : List α → List α
  | [] => acc
  | d :: rest =>
    if acc.contains d then mergeByDoc acc rest else mergeByDoc (acc ++ [d]) rest

/-- Steps 3b–4 of `services/search_engine.py::search` once the vector query
returned `reply`: guarded by
`vector_results and vector_results.get('ids') and vector_results['ids'][0]`,
ids are filtered with `.isdigit()` before `int(...)`, and the merge runs
only when some id survived. -/
def servicesMergeStep (getId : α → Int) (byIds : List Int → List α)
    (sql : List α) (reply : VectorReply) : List α :=
  match reply.ids with
  | [] => sql
  | inner :: _ =>
    if inner.isEmpty then sql
    else
      let vector_ids := (inner.filter strIsDigit).map strToInt
      if vector_ids.isEmpty then sql
      else mergeById getId sql (byIds vector_ids)

/-- The backend list comprehension `[int(id) for id in ids]`: `none` when
`int(...)` raises `ValueError` on any element. -/
def pyIntList : List String → Option (List Int)
  | [] => some []
  | s :: rest =>
    match pyIntParse s with
    | none => none
    | some n =>
      match pyIntList rest with
      | none => none
      | some ns => some (n :: ns)

/-- Steps 3b–4 of `backend/search_engine.py::search`: `ids` is indexed with
`[0]` (IndexError when empty), and every id goes through `int(...)`
unfiltered (ValueError on a non-numeral propagates). -/
def backendMergeStep [BEq α] (byIds : List Int → List α)
    (sql : List α) (reply : VectorReply) : Except Unit (List α) :=
  match reply.ids with
  | [] => Except.error ()
  | inner :: _ =>
    if inner.isEmpty then Except.ok sql
    else
      match pyIntList inner with
      | none => Except.error ()
      | some vector_ids => Except.ok (mergeByDoc sql (byIds vector_ids))

/-! ## The two orchestrators

`llm` is the outcome of the one `model.generate_content` call (`error` =
API/network exception), `vec` the outcome of the one `query_collection`
call (`error` = embedding provider or chroma raised).  `Except.error ()`
as a result means `search` raised to its caller. -/

/-- `services/search_engine.py::search(query, "jobs")`. -/
def servicesSearchJobs (rawQuery : String) (llm : Except Unit String)
    (vec : Except Unit VectorReply) (db : List Job) : Except Unit (List Job) :=
  match effectiveParsedServices rawQuery llm with
  | JVal.jobj fields =>
    let sql := sqlJobsFor fields db
    if pyTruthy (objGet fields "semantic_query") then
      match vec with
      | Except.error e => Except.error e
      | Except.ok reply => Except.ok (servicesMergeStep Job.id (get_jobs_by_ids db) sql reply)
    else Except.ok sql
  | _ => Except.error ()

/-- `services/search_engine.py::search(query, "candidates")`. -/
def servicesSearchCands (rawQuery : String) (llm : Except Unit String)
    (vec : Except Unit VectorReply) (db : List User) : Except Unit (List User) :=
  match effectiveParsedServices rawQuery llm with
  | JVal.jobj fields =>
    let sql := sqlCandsFor fields db
    if pyTruthy (objGet fields "semantic_query") then
      match vec with
      | Except.error e => Except.error e
      | Except.ok reply => Except.ok (servicesMergeStep User.id (get_candidates_by_ids db) sql reply)
    else Except.ok sql
  | _ => Except.error ()

/-- `backend/search_engine.py::search(query, "jobs")`.  `parse_query` is
called outside the `try`, so an LLM API error propagates; a parse result
without `.get` (non-dict JSON) raises `AttributeError`, uncaught here. -/
def backendSearchJobs (rawQuery : String) (llm : Except Unit String)
    (vec : Except Unit VectorReply) (db : List Job) : Except Unit (List Job) :=
  match backendParseQuery llm with
  | Except.error e => Except.error e
  | Except.ok txt =>
    match effectiveParsedBackend rawQuery txt with
    | JVal.jobj fields =>
      let sql := sqlJobsFor fields db
      if pyTruthy (objGet fields "semantic_query") then
        match vec with
        | Except.error e => Except.error e
        | Except.ok reply => backendMergeStep (get_jobs_by_ids db) sql reply
      else Except.ok sql
    | _ => Except.error ()

/-- `backend/search_engine.py::search(query, "candidates")`. -/
def backendSearchCands (rawQuery : String) (llm : Except Unit String)
    (vec : Except Unit VectorReply) (db : List User) : Except Unit (List User) :=
  match backendParseQuery llm with
  | Except.error e => Except.error e
  | Except.ok txt =>
    match effectiveParsedBackend rawQuery txt with
    | JVal.jobj fields =>
      let sql := sqlCandsFor fields db
      if pyTruthy (objGet fields "semantic_query") then
        match vec with
        | Except.error e => Except.error e
        | Except.ok reply => backendMergeStep (get_candidates_by_ids db) sql reply
      else Except.ok sql
    | _ => Except.error ()

/-! ## Lemmas about the string helpers -/

theorem leadsWith_iff {pat s : List Char} :
    leadsWith pat s = true ↔ ∃ r, s = pat ++ r := by
  induction pat generalizing s with
  | nil => simp [leadsWith]
  | cons a as ih =>
    cases s with
    | nil => simp [leadsWith]
    | cons b bs =>
      simp only [leadsWith, Bool.and_eq_true, beq_iff_eq, ih, List.cons_append]
      constructor
      · rintro ⟨rfl, r, rfl⟩
        exact ⟨r, rfl⟩
      · rintro ⟨r, heq⟩
        cases heq
        exact ⟨rfl, r, rfl⟩

theorem hasSub_iff {pat s : List Char} :
    hasSub pat s = true ↔ ∃ l r, s = l ++ pat ++ r := by
  induction s with
  | nil =>
    simp only [hasSub, leadsWith_iff]
    constructor
    · rintro ⟨r, heq⟩
      exact ⟨[], r, by simpa using heq⟩
    · rintro ⟨l, r, heq⟩
      have : l = [] ∧ pat ++ r = [] := by
        constructor
        · cases l with
          | nil => rfl
          | cons x xs => simp at heq
        · cases l with
          | nil => simpa using heq.symm
          | cons x xs => simp at heq
      exact ⟨r, by simp [this.2.symm] ⟩
  | cons c rest ih =>
    simp only [hasSub, Bool.or_eq_true, leadsWith_iff, ih]
    constructor
    · rintro (⟨r, heq⟩ | ⟨l, r, heq⟩)
      · exact ⟨[], r, by simpa using heq⟩
      · exact ⟨c :: l, r, by simp [heq]⟩
    · rintro ⟨l, r, heq⟩
      cases l with
      | nil => exact Or.inl ⟨r, by simpa using heq⟩
      | cons x xs =>
        simp only [List.cons_append, List.cons.injEq] at heq
        exact Or.inr ⟨xs, r, heq.2⟩

theorem hasSub_cons_false {pat : List Char} {c : Char} {rest : List Char}
    (h : hasSub pat (c :: rest) = false) : hasSub pat rest = false := by
  by_contra hne
  have : hasSub pat rest = true := by
    cases hr : hasSub pat rest with
    | true => rfl
    | false => exact absurd hr hne
  rcases hasSub_iff.mp this with ⟨l, r, rfl⟩
  have : hasSub pat (c :: (l ++ pat ++ r)) = true :=
    hasSub_iff.mpr ⟨c :: l, r, by simp⟩
  rw [this] at h
  exact Bool.noConfusion h

/-! ## Lemmas about `pyReplace` -/

theorem pyReplaceAux_nil (old new : List Char) (fuel : Nat) :
    pyReplaceAux old new fuel [] = [] := by
  cases fuel <;> rfl

theorem pyReplaceAux_not_found {old : List Char} (new : List Char) {s : List Char}
    (h : hasSub old s = false) : ∀ fuel, pyReplaceAux old new fuel s = s := by
  induction s with
  | nil => intro fuel; exact pyReplaceAux_nil old new fuel
  | cons c rest ih =>
    intro fuel
    cases fuel with
    | zero => rfl
    | succ f =>
      have hold : old.isEmpty = false := by
        cases old with
        | nil => simp [hasSub, leadsWith] at h
        | cons x xs => rfl
      have hlead : leadsWith old (c :: rest) = false := by
        cases hl : leadsWith old (c :: rest) with
        | false => rfl
        | true => simp [hasSub, hl] at h
      simp only [pyReplaceAux, hold, hlead, Bool.false_eq_true, if_false,
        List.cons.injEq, true_and]
      exact ih (hasSub_cons_false h) f

theorem pyReplaceAux_fuel {old new : List Char} :
    ∀ fuel s, s.length ≤ fuel → pyReplaceAux old new fuel s = pyReplaceL old new s := by
  intro fuel
  induction fuel using Nat.strong_induction_on with
  | _ fuel ih =>
    intro s hs
    match fuel, s with
    | _, [] => rw [pyReplaceAux_nil, pyReplaceL, List.length_nil, pyReplaceAux_nil]
    | 0, c :: rest => simp at hs
    | f + 1, c :: rest =>
      by_cases hold : old.isEmpty
      · simp [pyReplaceAux, pyReplaceL, hold]
      · have hold' : old.isEmpty = false := by simpa using hold
        have holdlen : 1 ≤ old.length := by
          cases old with
          | nil => simp [List.isEmpty] at hold'
          | cons x xs => simp
        by_cases hlead : leadsWith old (c :: rest)
        · have hdroplen : ((c :: rest).drop old.length).length ≤ rest.length := by
            simp only [List.length_drop, List.length_cons]
            omega
          have h1 : pyReplaceAux old new f ((c :: rest).drop old.length)
              = pyReplaceL old new ((c :: rest).drop old.length) := by
            apply ih f (by omega)
            have := hdroplen
            simp only [List.length_cons] at hs
            omega
          have h2 : pyReplaceAux old new rest.length ((c :: rest).drop old.length)
              = pyReplaceL old new ((c :: rest).drop old.length) := by
            apply ih rest.length (by simp only [List.length_cons] at hs; omega)
            exact hdroplen
          simp only [pyReplaceAux, pyReplaceL, List.length_cons, hold', hlead, if_true,
            Bool.false_eq_true, if_false]
          rw [h1, h2]
        · have hlead' : leadsWith old (c :: rest) = false := by simpa using hlead
          have h1 : pyReplaceAux old new f rest = pyReplaceL old new rest := by
            apply ih f (by omega)
            simp only [List.length_cons] at hs
            omega
          have h2 : pyReplaceAux old new rest.length rest = pyReplaceL old new rest := by
            apply ih rest.length (by simp only [List.length_cons] at hs; omega) rest le_rfl
          simp only [pyReplaceAux, pyReplaceL, List.length_cons, hold', hlead',
            Bool.false_eq_true, if_false]
          rw [h1, h2]

theorem pyReplaceL_not_found {old : List Char} (new : List Char) {s : List Char}
    (h : hasSub old s = false) : pyReplaceL old new s = s :=
  pyReplaceAux_not_found new h s.length

theorem leadsWith_append_self (p s : List Char) : leadsWith p (p ++ s) = true := by
  induction p with
  | nil => rfl
  | cons a as ih => simp [leadsWith, ih]

theorem pyReplaceL_head {old : List Char} (hne : old.isEmpty = false) (s : List Char) :
    pyReplaceL old [] (old ++ s) = pyReplaceL old [] s := by
  cases old with
  | nil => simp [List.isEmpty] at hne
  | cons o os =>
    have hlen : ((o :: os) ++ s).length = (os ++ s).length + 1 := by simp
    rw [pyReplaceL, hlen]
    have : (o :: os) ++ s = o :: (os ++ s) := rfl
    rw [this]
    have hlw : leadsWith (o :: os) (o :: (os ++ s)) = true := by
      have h2 : o :: (os ++ s) = (o :: os) ++ s := rfl
      rw [h2]
      exact leadsWith_append_self (o :: os) s
    simp only [pyReplaceAux, hne, hlw, List.nil_append, if_true,
      Bool.false_eq_true, if_false]
    have hdrop : (o :: (os ++ s)).drop (o :: os).length = s := by
      have : o :: (os ++ s) = (o :: os) ++ s := rfl
      rw [this, List.drop_left]
    rw [hdrop]
    apply pyReplaceAux_fuel
    simp

/-! ## The markdown-fence stripping is clean when the payload has no
triple-backtick run -/

theorem hasSub_fence_append_false {J : List Char}
    (h : hasSub "```".data J = false) :
    hasSub "```json".data (J ++ "```".data) = false := by
  cases hs : hasSub "```json".data (J ++ "```".data) with
  | false => rfl
  | true =>
    exfalso
    rcases hasSub_iff.mp hs with ⟨l, r, heq⟩
    have hf7 : ("```json".data : List Char) = "```".data ++ "json".data := rfl
    have hlenJ : J.length = l.length + 4 + r.length := by
      have := congrArg List.length heq
      simp at this
      omega
    have hJ : J = l ++ "```".data ++ ("json".data ++ r).take (1 + r.length) := by
      have h1 : (J ++ "```".data).take J.length = J := List.take_left J "```".data
      rw [heq, hf7] at h1
      rw [← h1]
      rw [List.append_assoc, List.append_assoc, List.take_append_eq_append_take]
      have hl : l.take J.length = l := List.take_of_length_le (by omega)
      rw [hl, List.take_append_eq_append_take]
      have ht3 : ("```".data : List Char).take (J.length - l.length) = "```".data :=
        List.take_of_length_le (by simp; omega)
      rw [ht3]
      have harith : J.length - l.length - ("```".data : List Char).length = 1 + r.length := by
        simp
        omega
      rw [harith, List.append_assoc]
    have : hasSub "```".data J = true :=
      hasSub_iff.mpr ⟨l, ("json".data ++ r).take (1 + r.length), by rw [hJ, List.append_assoc]⟩
    rw [this] at h
    exact Bool.noConfusion h

theorem pyReplaceAux_fence_tail {J : List Char} (h : hasSub "```".data J = false) :
    ∀ fuel, J.length + 3 ≤ fuel →
      pyReplaceAux "```".data [] fuel (J ++ "```".data) = J := by
  induction J with
  | nil =>
    intro fuel hfuel
    match fuel, hfuel with
    | f + 1, _ =>
      show pyReplaceAux "```".data [] (f + 1) "```".data = []
      have hlw : leadsWith "```".data "```".data = true := by decide
      simp only [pyReplaceAux, hlw, if_true, List.nil_append]
      have hd : (("```".data : List Char)).drop ("```".data : List Char).length = [] := by decide
      norm_num
      have : pyReplaceAux "```".data [] f [] = [] := pyReplaceAux_nil _ _ f
      simpa using this
  | cons c J' ih =>
    intro fuel hfuel
    cases fuel with
    | zero => simp at hfuel
    | succ f =>
      have hJ' : hasSub "```".data J' = false := hasSub_cons_false h
      have hf : J'.length + 3 ≤ f := by
        simp only [List.length_cons] at hfuel
        omega
      show pyReplaceAux "```".data [] (f + 1) (c :: (J' ++ "```".data)) = c :: J'
      by_cases hlead : leadsWith "```".data (c :: (J' ++ "```".data)) = true
      · -- the scan found three backticks starting at `c`; since J has no
        -- triple-backtick run, J' has at most one more character
        obtain ⟨r, hr⟩ := leadsWith_iff.mp hlead
        have hr' : c :: (J' ++ "```".data) = '\x60' :: '\x60' :: '\x60' :: r := hr
        cases J' with
        | nil =>
          simp only [List.nil_append, List.cons.injEq] at hr'
          obtain ⟨rfl, -⟩ := hr'
          have hrest : pyReplaceAux "```".data [] f ['\x60'] = ['\x60'] :=
            pyReplaceAux_not_found [] (by decide) f
          exact hrest
        | cons d J'' =>
          cases J'' with
          | nil =>
            simp only [List.cons_append, List.nil_append, List.cons.injEq] at hr'
            obtain ⟨rfl, rfl, -⟩ := hr'
            have hrest : pyReplaceAux "```".data [] f ['\x60', '\x60'] = ['\x60', '\x60'] :=
              pyReplaceAux_not_found [] (by decide) f
            exact hrest
          | cons e J''' =>
            exfalso
            simp only [List.cons_append, List.cons.injEq] at hr'
            obtain ⟨rfl, rfl, rfl, -⟩ := hr'
            have : hasSub "```".data ('\x60' :: '\x60' :: '\x60' :: J''') = true :=
              hasSub_iff.mpr ⟨[], J''', rfl⟩
            rw [this] at h
            exact Bool.noConfusion h
      · have hlead' : leadsWith "```".data (c :: (J' ++ "```".data)) = false := by
          simpa using hlead
        have hne : ("```".data : List Char).isEmpty = false := rfl
        simp only [pyReplaceAux, hne, hlead', Bool.false_eq_true, if_false,
          List.cons.injEq, true_and]
        exact ih hJ' f hf

/-- Stripping the markdown fences from a fenced payload recovers the payload
exactly, provided the payload has no triple-backtick run of its own. -/
theorem cleanResponse_fenced {J : String} (h : hasSub "```".data J.data = false) :
    cleanResponse ("```json" ++ J ++ "```") = J := by
  have hdata : ("```json" ++ J ++ "```").data
      = "```json".data ++ (J.data ++ "```".data) := by
    rw [String.data_append, String.data_append, List.append_assoc]
  have hstep1 : pyReplaceL "```json".data [] ("```json" ++ J ++ "```").data
      = J.data ++ "```".data := by
    rw [hdata, pyReplaceL_head (by decide)]
    exact pyReplaceL_not_found [] (hasSub_fence_append_false h)
  have hstep2 : pyReplaceL "```".data [] (J.data ++ "```".data) = J.data := by
    rw [pyReplaceL]
    exact pyReplaceAux_fence_tail h _ (by simp)
  show String.mk (pyReplaceL "```".data "".data
      (String.mk (pyReplaceL "```json".data "".data ("```json" ++ J ++ "```").data)).data) = J
  have hnew : ("".data : List Char) = [] := rfl
  rw [hnew, hstep1]
  show String.mk (pyReplaceL "```".data [] (J.data ++ "```".data)) = J
  rw [hstep2]

/-! ## Lemmas about the merge loops -/

theorem addNonDup_subset {getId : α → Int} {seen : List Int} {docs : List α} {x : α}
    (hx : x ∈ addNonDup getId seen docs) : x ∈ docs := by
  induction docs generalizing seen with
  | nil => simp [addNonDup] at hx
  | cons d rest ih =>
    simp only [addNonDup] at hx
    by_cases hc : seen.contains (getId d)
    · rw [if_pos hc] at hx
      exact List.mem_cons_of_mem d (ih hx)
    · rw [if_neg hc] at hx
      rcases List.mem_cons.mp hx with rfl | hx'
      · exact List.mem_cons_self x rest
      · exact List.mem_cons_of_mem d (ih hx')

theorem addNonDup_not_seen {getId : α → Int} {seen : List Int} {docs : List α} {x : α}
    (hx : x ∈ addNonDup getId seen docs) : getId x ∉ seen := by
  induction docs generalizing seen with
  | nil => simp [addNonDup] at hx
  | cons d rest ih =>
    simp only [addNonDup] at hx
    by_cases hc : seen.contains (getId d)
    · rw [if_pos hc] at hx
      exact ih hx
    · rw [if_neg hc] at hx
      rcases List.mem_cons.mp hx with rfl | hx'
      · intro hmem
        exact hc (List.elem_iff.mpr hmem)
      · intro hmem
        exact ih hx' (List.mem_cons_of_mem _ hmem)

theorem addNonDup_map_nodup (getId : α → Int) (seen : List Int) (docs : List α) :
    ((addNonDup getId seen docs).map getId).Nodup := by
  induction docs generalizing seen with
  | nil => simp [addNonDup]
  | cons d rest ih =>
    simp only [addNonDup]
    by_cases hc : seen.contains (getId d)
    · rw [if_pos hc]
      exact ih seen
    · rw [if_neg hc]
      simp only [List.map_cons, List.nodup_cons]
      refine ⟨?_, ih (getId d :: seen)⟩
      intro hmem
      rcases List.mem_map.mp hmem with ⟨y, hy, hyid⟩
      exact addNonDup_not_seen hy (by rw [hyid]; exact List.mem_cons_self _ _)

theorem addNonDup_of_nodup {getId : α → Int} {docs : List α}
    (hnd : (docs.map getId).Nodup) (seen : List Int) :
    addNonDup getId seen docs = docs.filter (fun x => !(seen.contains (getId x))) := by
  induction docs generalizing seen with
  | nil => simp [addNonDup]
  | cons d rest ih =>
    simp only [List.map_cons, List.nodup_cons] at hnd
    simp only [addNonDup, List.filter_cons]
    by_cases hc : seen.contains (getId d)
    · rw [if_pos hc]
      simp only [hc, Bool.not_true, Bool.false_eq_true, if_false]
      exact ih hnd.2 seen
    · rw [if_neg hc]
      have hcb : seen.contains (getId d) = false := by
        cases hcb' : seen.contains (getId d) with
        | true => exact absurd hcb' hc
        | false => rfl
      simp only [hcb, Bool.not_false, if_true, List.cons.injEq, true_and]
      rw [ih hnd.2 (getId d :: seen)]
      apply List.filter_congr
      intro x hx
      have hxd : getId x ≠ getId d := by
        intro heq
        exact hnd.1 (heq ▸ List.mem_map_of_mem getId hx)
      simp [List.contains_cons, hxd]

/-- `mergeById` definitionally splits into the SQL prefix and the appended
semantic tail. -/
theorem mergeById_eq (getId : α → Int) (sql docs : List α) :
    mergeById getId sql docs = sql ++ addNonDup getId (sql.map getId) docs := rfl

theorem mergeById_map_nodup {getId : α → Int} {sql : List α}
    (hsql : (sql.map getId).Nodup) (docs : List α) :
    ((mergeById getId sql docs).map getId).Nodup := by
  rw [mergeById_eq, List.map_append, List.nodup_append]
  refine ⟨hsql, addNonDup_map_nodup getId _ docs, ?_⟩
  intro a ha hb
  rcases List.mem_map.mp hb with ⟨y, hy, hyid⟩
  exact addNonDup_not_seen hy (hyid ▸ ha)

theorem mergeByDoc_acc [DecidableEq α] (docs : List α) :
    ∀ acc : List α, ∃ t, mergeByDoc acc docs = acc ++ t ∧ ∀ x ∈ t, x ∉ acc ∧ x ∈ docs := by
  induction docs with
  | nil => intro acc; exact ⟨[], by simp [mergeByDoc]⟩
  | cons d rest ih =>
    intro acc
    simp only [mergeByDoc]
    by_cases hc : acc.contains d
    · rw [if_pos hc]
      rcases ih acc with ⟨t, ht, hprop⟩
      exact ⟨t, ht, fun x hx => ⟨(hprop x hx).1, List.mem_cons_of_mem d (hprop x hx).2⟩⟩
    · rw [if_neg hc]
      rcases ih (acc ++ [d]) with ⟨t, ht, hprop⟩
      refine ⟨d :: t, by simpa using ht, ?_⟩
      intro x hx
      rcases List.mem_cons.mp hx with rfl | hx'
      · exact ⟨fun hmem => hc (List.elem_iff.mpr hmem), List.mem_cons_self x rest⟩
      · have := hprop x hx'
        constructor
        · intro hmem
          exact this.1 (List.mem_append_left [d] hmem)
        · exact List.mem_cons_of_mem d this.2

theorem mergeByDoc_nodup [DecidableEq α] {docs acc : List α}
    (hacc : acc.Nodup) : (mergeByDoc acc docs).Nodup := by
  induction docs generalizing acc with
  | nil => exact hacc
  | cons d rest ih =>
    simp only [mergeByDoc]
    by_cases hc : acc.contains d
    · rw [if_pos hc]
      exact ih hacc
    · rw [if_neg hc]
      apply ih
      rw [List.nodup_append]
      refine ⟨hacc, List.nodup_singleton d, ?_⟩
      intro a ha hb
      rw [List.mem_singleton.mp hb] at ha
      exact hc (List.elem_iff.mpr ha)

theorem mergeByDoc_mem [DecidableEq α] {docs acc : List α} {x : α}
    (hx : x ∈ mergeByDoc acc docs) : x ∈ acc ∨ x ∈ docs := by
  rcases mergeByDoc_acc docs acc with ⟨t, ht, hprop⟩
  rw [ht] at hx
  rcases List.mem_append.mp hx with h | h
  · exact Or.inl h
  · exact Or.inr (hprop x h).2

/-! ## Characterizations of the merge steps and orchestrators -/

theorem search_jobs_sublist (db : List Job) (location : Option String)
    (salary experience : Option Int) (skills : Option (List String))
    (job_type : Option String) :
    List.Sublist (search_jobs db location salary experience skills job_type) db :=
  List.filter_sublist db

theorem search_candidates_sublist (db : List User) (location : Option String)
    (skills : Option (List String)) :
    List.Sublist (search_candidates db location skills) db :=
  List.filter_sublist db

theorem get_jobs_by_ids_sublist (db : List Job) (ids : List Int) :
    List.Sublist (get_jobs_by_ids db ids) db := by
  rw [get_jobs_by_ids]
  by_cases h : ids.isEmpty
  · rw [if_pos h]; exact List.nil_sublist db
  · rw [if_neg h]; exact List.filter_sublist db

theorem get_candidates_by_ids_sublist (db : List User) (ids : List Int) :
    List.Sublist (get_candidates_by_ids db ids) db := by
  rw [get_candidates_by_ids]
  by_cases h : ids.isEmpty
  · rw [if_pos h]; exact List.nil_sublist db
  · rw [if_neg h]; exact List.filter_sublist db

/-- Everything the services merge step returns is the SQL prefix followed by
a tail that (a) is drawn from the store in store order and (b) repeats no
identifier already present among the SQL results. -/
theorem servicesMergeStep_split {getId : α → Int} {byIds : List Int → List α} {db : List α}
    (hby : ∀ ids, List.Sublist (byIds ids) db) (hnd : (db.map getId).Nodup)
    (sql : List α) (reply : VectorReply) :
    ∃ t, servicesMergeStep getId byIds sql reply = sql ++ t
      ∧ List.Sublist t db ∧ ∀ x ∈ t, getId x ∉ sql.map getId := by
  have triv : ∃ t, sql = sql ++ t ∧ List.Sublist t db ∧ ∀ x ∈ t, getId x ∉ sql.map getId :=
    ⟨[], by simp, List.nil_sublist db, by simp⟩
  rw [servicesMergeStep]
  match reply.ids with
  | [] => exact triv
  | inner :: rest =>
    by_cases hinner : inner.isEmpty
    · simpa [hinner] using triv
    · have hinner' : inner.isEmpty = false := by simpa using hinner
      simp only [hinner', Bool.false_eq_true, if_false]
      set vids := (inner.filter strIsDigit).map strToInt with hvids
      by_cases hv : vids.isEmpty
      · simpa [hv] using triv
      · have hv' : vids.isEmpty = false := by simpa using hv
        simp only [hv', Bool.false_eq_true, if_false]
        set docs := byIds vids with hdocs
        have hdocsnd : (docs.map getId).Nodup :=
          List.Nodup.sublist (List.Sublist.map getId (hby vids)) hnd
        refine ⟨addNonDup getId (sql.map getId) docs, mergeById_eq getId sql docs, ?_, ?_⟩
        · rw [addNonDup_of_nodup hdocsnd]
          exact List.Sublist.trans (List.filter_sublist docs) (hby vids)
        · intro x hx
          exact addNonDup_not_seen hx

/-- Identifier-nodup for the services merge step. -/
theorem servicesMergeStep_map_nodup {getId : α → Int} {sql : List α}
    (hsql : (sql.map getId).Nodup) (byIds : List Int → List α) (reply : VectorReply) :
    ((servicesMergeStep getId byIds sql reply).map getId).Nodup := by
  rw [servicesMergeStep]
  match reply.ids with
  | [] => exact hsql
  | inner :: rest =>
    by_cases hinner : inner.isEmpty
    · simpa [hinner] using hsql
    · have hinner' : inner.isEmpty = false := by simpa using hinner
      simp only [hinner', Bool.false_eq_true, if_false]
      by_cases hv : ((inner.filter strIsDigit).map strToInt).isEmpty
      · simpa [hv] using hsql
      · have hv' : ((inner.filter strIsDigit).map strToInt).isEmpty = false := by simpa using hv
        simp only [hv', Bool.false_eq_true, if_false]
        exact mergeById_map_nodup hsql _

/-- A successful backend merge step splits into the SQL prefix and a tail of
new rows drawn from the id-lookup. -/
theorem backendMergeStep_split [DecidableEq α] {byIds : List Int → List α}
    {sql : List α} {reply : VectorReply} {l : List α}
    (h : backendMergeStep byIds sql reply = Except.ok l) :
    ∃ t, l = sql ++ t ∧ ∀ x ∈ t, x ∉ sql ∧ ∃ ids, x ∈ byIds ids := by
  rw [backendMergeStep] at h
  match hids : reply.ids with
  | [] => rw [hids] at h; exact absurd h (by simp)
  | inner :: rest =>
    rw [hids] at h
    dsimp only at h
    by_cases hinner : inner.isEmpty
    · rw [if_pos hinner] at h
      have : sql = l := by simpa using h
      exact ⟨[], by simp [this], by simp⟩
    · rw [if_neg hinner] at h
      match hp : pyIntList inner with
      | none => rw [hp] at h; exact absurd h (by simp)
      | some vids =>
        rw [hp] at h
        have hl : mergeByDoc sql (byIds vids) = l := by simpa using h
        rcases mergeByDoc_acc (byIds vids) sql with ⟨t, ht, hprop⟩
        refine ⟨t, by rw [← hl, ht], ?_⟩
        intro x hx
        exact ⟨(hprop x hx).1, vids, (hprop x hx).2⟩

/-- Row-nodup for a successful backend merge step. -/
theorem backendMergeStep_nodup [DecidableEq α] {byIds : List Int → List α}
    {sql : List α} {reply : VectorReply} {l : List α}
    (hsql : sql.Nodup) (h : backendMergeStep byIds sql reply = Except.ok l) :
    l.Nodup := by
  rw [backendMergeStep] at h
  match hids : reply.ids with
  | [] => rw [hids] at h; exact absurd h (by simp)
  | inner :: rest =>
    rw [hids] at h
    dsimp only at h
    by_cases hinner : inner.isEmpty
    · rw [if_pos hinner] at h
      have : sql = l := by simpa using h
      exact this ▸ hsql
    · rw [if_neg hinner] at h
      match hp : pyIntList inner with
      | none => rw [hp] at h; exact absurd h (by simp)
      | some vids =>
        rw [hp] at h
        have hl : mergeByDoc sql (byIds vids) = l := by simpa using h
        exact hl ▸ mergeByDoc_nodup hsql

/-- Everything in a successful backend merge result comes from the SQL
results or from the id-lookup. -/
theorem backendMergeStep_mem [DecidableEq α] {byIds : List Int → List α}
    {sql : List α} {reply : VectorReply} {l : List α} {x : α}
    (h : backendMergeStep byIds sql reply = Except.ok l) (hx : x ∈ l) :
    x ∈ sql ∨ ∃ ids, x ∈ byIds ids := by
  rcases backendMergeStep_split h with ⟨t, rfl, hprop⟩
  rcases List.mem_append.mp hx with hmem | hmem
  · exact Or.inl hmem
  · exact Or.inr (hprop x hmem).2

/-- Shape of a successful services job search. -/
theorem servicesSearchJobs_ok {rawQuery : String} {llm : Except Unit String}
    {vec : Except Unit VectorReply} {db : List Job} {l : List Job}
    (h : servicesSearchJobs rawQuery llm vec db = Except.ok l) :
    ∃ fields, effectiveParsedServices rawQuery llm = JVal.jobj fields
      ∧ (l = sqlJobsFor fields db
         ∨ ∃ reply, vec = Except.ok reply
             ∧ l = servicesMergeStep Job.id (get_jobs_by_ids db) (sqlJobsFor fields db) reply) := by
  rw [servicesSearchJobs] at h
  match hp : effectiveParsedServices rawQuery llm with
  | JVal.jobj fields =>
    rw [hp] at h
    dsimp only at h
    refine ⟨fields, rfl, ?_⟩
    by_cases ht : pyTruthy (objGet fields "semantic_query") = true
    · rw [if_pos ht] at h
      match hv : vec with
      | Except.error e => dsimp only at h; exact absurd h (by simp)
      | Except.ok reply =>
        dsimp only at h
        exact Or.inr ⟨reply, rfl, by simpa using h.symm⟩
    · rw [if_neg ht] at h
      exact Or.inl (by simpa using h.symm)
  | JVal.jnull => rw [hp] at h; exact absurd h (by simp)
  | JVal.jbool b => rw [hp] at h; exact absurd h (by simp)
  | JVal.jint n => rw [hp] at h; exact absurd h (by simp)
  | JVal.jstr s => rw [hp] at h; exact absurd h (by simp)
  | JVal.jarr xs => rw [hp] at h; exact absurd h (by simp)

/-- Shape of a successful services candidate search. -/
theorem servicesSearchCands_ok {rawQuery : String} {llm : Except Unit String}
    {vec : Except Unit VectorReply} {db : List User} {l : List User}
    (h : servicesSearchCands rawQuery llm vec db = Except.ok l) :
    ∃ fields, effectiveParsedServices rawQuery llm = JVal.jobj fields
      ∧ (l = sqlCandsFor fields db
         ∨ ∃ reply, vec = Except.ok reply
             ∧ l = servicesMergeStep User.id (get_candidates_by_ids db) (sqlCandsFor fields db) reply) := by
  rw [servicesSearchCands] at h
  match hp : effectiveParsedServices rawQuery llm with
  | JVal.jobj fields =>
    rw [hp] at h
    dsimp only at h
    refine ⟨fields, rfl, ?_⟩
    by_cases ht : pyTruthy (objGet fields "semantic_query") = true
    · rw [if_pos ht] at h
      match hv : vec with
      | Except.error e => dsimp only at h; exact absurd h (by simp)
      | Except.ok reply =>
        dsimp only at h
        exact Or.inr ⟨reply, rfl, by simpa using h.symm⟩
    · rw [if_neg ht] at h
      exact Or.inl (by simpa using h.symm)
  | JVal.jnull => rw [hp] at h; exact absurd h (by simp)
  | JVal.jbool b => rw [hp] at h; exact absurd h (by simp)
  | JVal.jint n => rw [hp] at h; exact absurd h (by simp)
  | JVal.jstr s => rw [hp] at h; exact absurd h (by simp)
  | JVal.jarr xs => rw [hp] at h; exact absurd h (by simp)

/-- Shape of a successful backend job search. -/
theorem backendSearchJobs_ok {rawQuery : String} {llm : Except Unit String}
    {vec : Except Unit VectorReply} {db : List Job} {l : List Job}
    (h : backendSearchJobs rawQuery llm vec db = Except.ok l) :
    ∃ txt fields, llm = Except.ok txt
      ∧ effectiveParsedBackend rawQuery txt = JVal.jobj fields
      ∧ (l = sqlJobsFor fields db
         ∨ ∃ reply, vec = Except.ok reply
             ∧ backendMergeStep (get_jobs_by_ids db) (sqlJobsFor fields db) reply = Except.ok l) := by
  rw [backendSearchJobs] at h
  match hllm : llm with
  | Except.error e => dsimp only [backendParseQuery] at h; exact absurd h (by simp)
  | Except.ok txt =>
    dsimp only [backendParseQuery] at h
    refine ⟨txt, ?_⟩
    match hp : effectiveParsedBackend rawQuery txt with
    | JVal.jobj fields =>
      rw [hp] at h
      dsimp only at h
      refine ⟨fields, rfl, rfl, ?_⟩
      by_cases ht : pyTruthy (objGet fields "semantic_query") = true
      · rw [if_pos ht] at h
        match hv : vec with
        | Except.error e => dsimp only at h; exact absurd h (by simp)
        | Except.ok reply =>
          dsimp only at h
          exact Or.inr ⟨reply, rfl, h⟩
      · rw [if_neg ht] at h
        exact Or.inl (by simpa using h.symm)
    | JVal.jnull => rw [hp] at h; exact absurd h (by simp)
    | JVal.jbool b => rw [hp] at h; exact absurd h (by simp)
    | JVal.jint n => rw [hp] at h; exact absurd h (by simp)
    | JVal.jstr s => rw [hp] at h; exact absurd h (by simp)
    | JVal.jarr xs => rw [hp] at h; exact absurd h (by simp)

/-- Shape of a successful backend candidate search. -/
theorem backendSearchCands_ok {rawQuery : String} {llm : Except Unit String}
    {vec : Except Unit VectorReply} {db : List User} {l : List User}
    (h : backendSearchCands rawQuery llm vec db = Except.ok l) :
    ∃ txt fields, llm = Except.ok txt
      ∧ effectiveParsedBackend rawQuery txt = JVal.jobj fields
      ∧ (l = sqlCandsFor fields db
         ∨ ∃ reply, vec = Except.ok reply
             ∧ backendMergeStep (get_candidates_by_ids db) (sqlCandsFor fields db) reply = Except.ok l) := by
  rw [backendSearchCands] at h
  match hllm : llm with
  | Except.error e => dsimp only [backendParseQuery] at h; exact absurd h (by simp)
  | Except.ok txt =>
    dsimp only [backendParseQuery] at h
    refine ⟨txt, ?_⟩
    match hp : effectiveParsedBackend rawQuery txt with
    | JVal.jobj fields =>
      rw [hp] at h
      dsimp only at h
      refine ⟨fields, rfl, rfl, ?_⟩
      by_cases ht : pyTruthy (objGet fields "semantic_query") = true
      · rw [if_pos ht] at h
        match hv : vec with
        | Except.error e => dsimp only at h; exact absurd h (by simp)
        | Except.ok reply =>
          dsimp only at h
          exact Or.inr ⟨reply, rfl, h⟩
      · rw [if_neg ht] at h
        exact Or.inl (by simpa using h.symm)
    | JVal.jnull => rw [hp] at h; exact absurd h (by simp)
    | JVal.jbool b => rw [hp] at h; exact absurd h (by simp)
    | JVal.jint n => rw [hp] at h; exact absurd h (by simp)
    | JVal.jstr s => rw [hp] at h; exact absurd h (by simp)
    | JVal.jarr xs => rw [hp] at h; exact absurd h (by simp)

/-! ## Concrete sample data used by witnesses and counterexamples -/

/-- A toy embedding provider: deterministic in the text, as the contract
requires. -/
def embedLen : String → List Int :=
  fun s => [Int.ofNat s.data.length]

def jobAustin1 : Job :=
  ⟨1, 100, "Backend Engineer", "Austin, TX", "full-time", "Build APIs", "python, sql", 90000, 120000⟩

def jobAustin2 : Job :=
  ⟨2, 100, "Data Engineer", "Austin, TX", "full-time", "Pipelines", "python, spark", 95000, 130000⟩

def jobAustin3 : Job :=
  ⟨3, 101, "ML Engineer", "Austin, TX", "full-time", "Models", "python, pytorch", 110000, 150000⟩

def jobBoston : Job :=
  ⟨4, 101, "Frontend Engineer", "Boston, MA", "full-time", "UI work", "react, js", 85000, 115000⟩

def jobDenver : Job :=
  ⟨5, 102, "DevOps Engineer", "Denver, CO", "full-time", "Infra", "aws, terraform", 100000, 140000⟩

def jobSeattle : Job :=
  ⟨6, 102, "Platform Engineer", "Seattle, WA", "full-time", "Platform", "go, k8s", 120000, 160000⟩

def jobMiami : Job :=
  ⟨7, 103, "Support Engineer", "Miami, FL", "part-time", "Support", "sql", 60000, 80000⟩

/-- The seven-row jobs table used by the merge scenarios: three rows match
location "Austin", four do not. -/
def jobsDb : List Job :=
  [jobAustin1, jobAustin2, jobAustin3, jobBoston, jobDenver, jobSeattle, jobMiami]

/-- A well-formed reply of the query parser for a location query. -/
def llmAustin : String :=
  "\x7b\"location\": \"Austin\", \"salary\": null, \"experience\": null, \"skills\": null, \"job_type\": null, \"semantic_query\": \"engineer\"\x7d"

/-- A parser reply whose location filter matches no row (used to isolate the
semantic tail). -/
def llmNoMatch : String :=
  "\x7b\"location\": \"zzz\", \"salary\": null, \"experience\": null, \"skills\": null, \"job_type\": null, \"semantic_query\": \"engineer\"\x7d"

def userSeeker1 : User :=
  ⟨11, "ana@x.io", "jobseeker", "Ana", "555", "", "Austin, TX", "Senior", "BSc", ["python", "sql"]⟩

def userSeeker2 : User :=
  ⟨12, "bo@x.io", "jobseeker", "Bo", "556", "", "Boston, MA", "Junior", "MSc", ["react"]⟩

def userRecruiter : User :=
  ⟨13, "cy@x.io", "recruiter", "Cy", "557", "Acme", "Denver, CO", "", "", []⟩

/-- A three-row users table with one recruiter. -/
def usersDb : List User :=
  [userSeeker1, userSeeker2, userRecruiter]

/-! ## C7 — `add_to_collection` does not upsert -/

/-- **C7** (code bug).  The claim — and the docstring of
`services/vector_service.py::add_to_collection` itself ("If a document with
the same ID already exists, its entry will be updated (upsert)") — promise
insert-or-update semantics.  The code calls chroma's `collection.add`, not
`collection.upsert`; `add` never replaces an existing record.  Evaluating
the code at the failing input: after adding id "1" with document
"old job text" and then calling `add_to_collection` again for id "1" with
document "new job text" and new metadata, the collection still holds the
original record — the second write is not applied. -/
theorem C7_add_is_not_upsert :
    add_to_collection embedLen
        (add_to_collection embedLen [] "1" "old job text" [("title", "Old")])
        "1" "new job text" [("title", "New")]
      = [⟨"1", [12], "old job text", [("title", "Old")]⟩] := rfl

/-! ## C10 — the candidate path only produces jobseekers -/

theorem chromaAdd_mem {col : List VectorRecord} {nr r : VectorRecord}
    (h : r ∈ chromaAdd col nr) : r ∈ col ∨ r = nr := by
  rw [chromaAdd] at h
  by_cases hc : col.any (fun x => x.id == nr.id)
  · rw [if_pos hc] at h
    exact Or.inl h
  · rw [if_neg hc] at h
    rcases List.mem_append.mp h with h' | h'
    · exact Or.inl h'
    · exact Or.inr (List.mem_singleton.mp h')

theorem sync_fold_mem {embed : String → List Int} :
    ∀ (cands : List User) (col : List VectorRecord) (r : VectorRecord),
      r ∈ cands.foldl
          (fun acc c =>
            add_to_collection embed acc (toString c.id) (candidateDocument c) (candidateMetadata c))
          col →
      r ∈ col ∨ ∃ u ∈ cands, r.id = toString u.id := by
  intro cands
  induction cands with
  | nil => intro col r h; exact Or.inl h
  | cons c rest ih =>
    intro col r h
    rw [List.foldl_cons] at h
    rcases ih _ r h with hcol | ⟨u, hu, hid⟩
    · rcases chromaAdd_mem hcol with h' | h'
      · exact Or.inl h'
      · exact Or.inr ⟨c, List.mem_cons_self c rest, by rw [h']⟩
    · exact Or.inr ⟨u, List.mem_cons_of_mem c hu, hid⟩

/-- **C10** (confirmed).  (a) `search_candidates` filters on
`user_type = 'jobseeker'`, so every returned row is a jobseeker, for every
filter combination; (b) `sync_candidates` inserts only jobseeker profiles
into the candidate vector collection: every record of the resulting
collection was either already there or is keyed by the id of a jobseeker
row of the users table. -/
theorem C10_candidate_path_jobseekers_only :
    (∀ (db : List User) (location : Option String) (skills : Option (List String)) (u : User),
        u ∈ search_candidates db location skills → u.user_type = "jobseeker")
    ∧ (∀ (embed : String → List Int) (db : List User) (col : List VectorRecord)
        (r : VectorRecord), r ∈ sync_candidates embed db col →
          r ∈ col ∨ ∃ u, u ∈ db ∧ u.user_type = "jobseeker" ∧ r.id = toString u.id) := by
  constructor
  · intro db location skills u hu
    rw [search_candidates] at hu
    have hp := (List.mem_filter.mp hu).2
    simp only [Bool.and_eq_true, beq_iff_eq] at hp
    exact hp.1.1
  · intro embed db col r hr
    rw [sync_candidates] at hr
    rcases sync_fold_mem _ col r hr with hcol | ⟨u, hu, hid⟩
    · exact Or.inl hcol
    · have hmem := List.mem_filter.mp hu
      exact Or.inr ⟨u, hmem.1, by simpa using hmem.2, hid⟩

/-- Witness for C10: on the sample users table a concrete search returns
`userSeeker1`, and the theorem yields that they are a jobseeker. -/
theorem C10_witness :
    userSeeker1 ∈ search_candidates usersDb (some "Austin") none
      ∧ userSeeker1.user_type = "jobseeker" :=
  ⟨by decide,
   C10_candidate_path_jobseekers_only.1 usersDb (some "Austin") none userSeeker1 (by decide)⟩

/-! ## C2 — the merged result never repeats an identifier -/

/-- **C2** (confirmed).  For every raw query, language-model outcome, vector
outcome and well-formed store (primary-key ids), a successful `search` of
either kind, in either implementation, returns a list with pairwise
distinct identifiers.  The final conjuncts check the spec's scenario on the
backend orchestrator: Structured Search returns 3 rows for "Austin", the
Vector Index returns 5 matches of which 2 (ids 1 and 2) are already among
the structured rows, and the merged list has exactly the 6 distinct
entities — not 8. -/
theorem C2_no_duplicate_identifiers :
    (∀ (rawQuery : String) (llm : Except Unit String) (vec : Except Unit VectorReply)
        (db : List Job) (l : List Job), (db.map Job.id).Nodup →
        servicesSearchJobs rawQuery llm vec db = Except.ok l → (l.map Job.id).Nodup)
    ∧ (∀ (rawQuery : String) (llm : Except Unit String) (vec : Except Unit VectorReply)
        (db : List User) (l : List User), (db.map User.id).Nodup →
        servicesSearchCands rawQuery llm vec db = Except.ok l → (l.map User.id).Nodup)
    ∧ (∀ (rawQuery : String) (llm : Except Unit String) (vec : Except Unit VectorReply)
        (db : List Job) (l : List Job), (db.map Job.id).Nodup →
        backendSearchJobs rawQuery llm vec db = Except.ok l → (l.map Job.id).Nodup)
    ∧ (∀ (rawQuery : String) (llm : Except Unit String) (vec : Except Unit VectorReply)
        (db : List User) (l : List User), (db.map User.id).Nodup →
        backendSearchCands rawQuery llm vec db = Except.ok l → (l.map User.id).Nodup)
    ∧ search_jobs jobsDb (some "Austin") none none none none
        = [jobAustin1, jobAustin2, jobAustin3]
    ∧ backendSearchJobs "jobs in Austin" (Except.ok llmAustin)
        (Except.ok ⟨[["1", "2", "4", "5", "6"]]⟩) jobsDb
      = Except.ok [jobAustin1, jobAustin2, jobAustin3, jobBoston, jobDenver, jobSeattle] := by
  refine ⟨?_, ?_, ?_, ?_, rfl, rfl⟩
  · intro rawQuery llm vec db l hnd h
    rcases servicesSearchJobs_ok h with ⟨fields, hp, hcase⟩
    have hsqlnd : ((sqlJobsFor fields db).map Job.id).Nodup :=
      List.Nodup.sublist (List.Sublist.map Job.id (search_jobs_sublist db _ _ _ _ _)) hnd
    rcases hcase with rfl | ⟨reply, hv, rfl⟩
    · exact hsqlnd
    · exact servicesMergeStep_map_nodup hsqlnd _ reply
  · intro rawQuery llm vec db l hnd h
    rcases servicesSearchCands_ok h with ⟨fields, hp, hcase⟩
    have hsqlnd : ((sqlCandsFor fields db).map User.id).Nodup :=
      List.Nodup.sublist (List.Sublist.map User.id (search_candidates_sublist db _ _)) hnd
    rcases hcase with rfl | ⟨reply, hv, rfl⟩
    · exact hsqlnd
    · exact servicesMergeStep_map_nodup hsqlnd _ reply
  · intro rawQuery llm vec db l hnd h
    rcases backendSearchJobs_ok h with ⟨txt, fields, hllm, hp, hcase⟩
    have hsub : List.Sublist (sqlJobsFor fields db) db := search_jobs_sublist db _ _ _ _ _
    have hsqlnd : ((sqlJobsFor fields db).map Job.id).Nodup :=
      List.Nodup.sublist (List.Sublist.map Job.id hsub) hnd
    rcases hcase with rfl | ⟨reply, hv, hmerge⟩
    · exact hsqlnd
    · have hmemdb : ∀ x ∈ l, x ∈ db := by
        intro x hx
        rcases backendMergeStep_mem hmerge hx with h' | ⟨ids, h'⟩
        · exact hsub.subset h'
        · exact (get_jobs_by_ids_sublist db ids).subset h'
      have hlnd : l.Nodup :=
        backendMergeStep_nodup (List.Nodup.sublist hsub (List.Nodup.of_map Job.id hnd)) hmerge
      exact hlnd.map_on
        (fun x hx y hy hxy => List.inj_on_of_nodup_map hnd (hmemdb x hx) (hmemdb y hy) hxy)
  · intro rawQuery llm vec db l hnd h
    rcases backendSearchCands_ok h with ⟨txt, fields, hllm, hp, hcase⟩
    have hsub : List.Sublist (sqlCandsFor fields db) db := search_candidates_sublist db _ _
    have hsqlnd : ((sqlCandsFor fields db).map User.id).Nodup :=
      List.Nodup.sublist (List.Sublist.map User.id hsub) hnd
    rcases hcase with rfl | ⟨reply, hv, hmerge⟩
    · exact hsqlnd
    · have hmemdb : ∀ x ∈ l, x ∈ db := by
        intro x hx
        rcases backendMergeStep_mem hmerge hx with h' | ⟨ids, h'⟩
        · exact hsub.subset h'
        · exact (get_candidates_by_ids_sublist db ids).subset h'
      have hlnd : l.Nodup :=
        backendMergeStep_nodup (List.Nodup.sublist hsub (List.Nodup.of_map User.id hnd)) hmerge
      exact hlnd.map_on
        (fun x hx y hy hxy => List.inj_on_of_nodup_map hnd (hmemdb x hx) (hmemdb y hy) hxy)

/-- Witness for C2: the services job search on the sample table succeeds
and the theorem yields distinct identifiers for its result. -/
theorem C2_witness :
    servicesSearchJobs "find sql people" (Except.error ()) (Except.ok ⟨[["3", "1"]]⟩) jobsDb
      = Except.ok jobsDb
    ∧ ((jobsDb.map Job.id).Nodup) :=
  ⟨rfl,
   C2_no_duplicate_identifiers.1 "find sql people" (Except.error ()) (Except.ok ⟨[["3", "1"]]⟩)
     jobsDb jobsDb (by decide) rfl⟩

/-! ## C4 — structured results precede semantic-only results -/

/-- **C4** (confirmed, in the stronger unconditional form).  A successful
`search` always returns the Structured Search results as a prefix, in the
exact order Structured Search produced them, followed only by entities
whose identifier is not among the structured results — in particular
whenever the two sets are non-empty and disjoint, every structured result
precedes every semantic-only result.  Stated for the services and the
backend job orchestrators (the backend conjunct uses the primary-key
hypothesis to translate its whole-row dedup into identifier terms). -/
theorem C4_structured_results_first :
    (∀ (rawQuery : String) (llm : Except Unit String) (vec : Except Unit VectorReply)
        (db : List Job) (fields : List (String × JVal)) (l : List Job),
        effectiveParsedServices rawQuery llm = JVal.jobj fields →
        (db.map Job.id).Nodup →
        servicesSearchJobs rawQuery llm vec db = Except.ok l →
        ∃ t, l = sqlJobsFor fields db ++ t
          ∧ ∀ x ∈ t, Job.id x ∉ (sqlJobsFor fields db).map Job.id)
    ∧ (∀ (rawQuery txt : String) (vec : Except Unit VectorReply)
        (db : List Job) (fields : List (String × JVal)) (l : List Job),
        effectiveParsedBackend rawQuery txt = JVal.jobj fields →
        (db.map Job.id).Nodup →
        backendSearchJobs rawQuery (Except.ok txt) vec db = Except.ok l →
        ∃ t, l = sqlJobsFor fields db ++ t
          ∧ ∀ x ∈ t, Job.id x ∉ (sqlJobsFor fields db).map Job.id) := by
  constructor
  · intro rawQuery llm vec db fields l hpq hnd h
    rcases servicesSearchJobs_ok h with ⟨fields', hpq', hcase⟩
    rw [hpq] at hpq'
    cases hpq'
    rcases hcase with rfl | ⟨reply, hv, rfl⟩
    · exact ⟨[], by simp⟩
    · rcases @servicesMergeStep_split Job Job.id (get_jobs_by_ids db) db (get_jobs_by_ids_sublist db) hnd
        (sqlJobsFor fields db) reply with ⟨t, heq, _, hnot⟩
      exact ⟨t, heq, hnot⟩
  · intro rawQuery txt vec db fields l hpq hnd h
    rcases backendSearchJobs_ok h with ⟨txt', fields', hllm, hpq', hcase⟩
    cases hllm
    rw [hpq] at hpq'
    cases hpq'
    have hsub : List.Sublist (sqlJobsFor fields db) db := search_jobs_sublist db _ _ _ _ _
    rcases hcase with rfl | ⟨reply, hv, hmerge⟩
    · exact ⟨[], by simp⟩
    · rcases backendMergeStep_split hmerge with ⟨t, rfl, hprop⟩
      refine ⟨t, rfl, ?_⟩
      intro x hx hidmem
      rcases List.mem_map.mp hidmem with ⟨y, hy, hyid⟩
      rcases (hprop x hx).2 with ⟨ids, hxids⟩
      have hxdb : x ∈ db := (get_jobs_by_ids_sublist db ids).subset hxids
      have hydb : y ∈ db := hsub.subset hy
      have : y = x := List.inj_on_of_nodup_map hnd hydb hxdb hyid
      exact (hprop x hx).1 (this ▸ hy)

/-- Witness for C4: a concrete services search where the fallback parse has
no filters, so the structured prefix is the whole table. -/
theorem C4_witness :
    ∃ t, jobsDb = sqlJobsFor [("semantic_query", JVal.jstr "find sql people")] jobsDb ++ t
      ∧ ∀ x ∈ t, Job.id x ∉ (sqlJobsFor [("semantic_query", JVal.jstr "find sql people")] jobsDb).map Job.id :=
  C4_structured_results_first.1 "find sql people" (Except.error ()) (Except.ok ⟨[["3", "1"]]⟩)
    jobsDb [("semantic_query", JVal.jstr "find sql people")] jobsDb rfl (by decide) rfl

/-! ## C5 — the semantic tail is in store order, not vector order -/

/-- A double-encoded parser reply: `services/ai_service.py::parse_query`
already applies `json.loads`, so the orchestrator's own decoding stage only
yields a dict when the model's text decodes to a *string* that itself
decodes to the dict.  Used to drive structured filters through the services
orchestrator. -/
def llmC5 : String :=
  "\"\x7b\\\"location\\\": \\\"zzz\\\", \\\"semantic_query\\\": \\\"engineer\\\"\x7d\""

/-- **C5** (counterexample to the claim as stated).  The Vector Index reply
orders match "5" before match "4", both semantic-only (the structured set is
empty because no row matches location "zzz"), yet the merged list is
`[jobBoston (id 4), jobDenver (id 5)]` — the order the relational store
returns rows for `SELECT ... WHERE id IN (5, 4)`, which has no `ORDER BY` —
and not the vector order `[jobDenver, jobBoston]` the claim requires. -/
theorem C5_counterexample :
    servicesSearchJobs "q" (Except.ok llmC5) (Except.ok ⟨[["5", "4"]]⟩) [jobBoston, jobDenver]
      = Except.ok [jobBoston, jobDenver]
    ∧ [jobBoston, jobDenver] ≠ [jobDenver, jobBoston] :=
  ⟨rfl, by decide⟩

/-- **C5** (amended).  The semantic-only entities are appended in the order
the relational store returns them for the id-list lookup — a sublist of the
store in store order — not in the order of the vector matches. -/
theorem C5_semantic_tail_in_store_order :
    ∀ (rawQuery : String) (llm : Except Unit String) (vec : Except Unit VectorReply)
      (db : List Job) (fields : List (String × JVal)) (l : List Job),
      effectiveParsedServices rawQuery llm = JVal.jobj fields →
      (db.map Job.id).Nodup →
      servicesSearchJobs rawQuery llm vec db = Except.ok l →
      ∃ t, l = sqlJobsFor fields db ++ t ∧ List.Sublist t db := by
  intro rawQuery llm vec db fields l hpq hnd h
  rcases servicesSearchJobs_ok h with ⟨fields', hpq', hcase⟩
  rw [hpq] at hpq'
  cases hpq'
  rcases hcase with rfl | ⟨reply, hv, rfl⟩
  · exact ⟨[], by simp, List.nil_sublist db⟩
  · rcases @servicesMergeStep_split Job Job.id (get_jobs_by_ids db) db (get_jobs_by_ids_sublist db) hnd
      (sqlJobsFor fields db) reply with ⟨t, heq, hsub, _⟩
    exact ⟨t, heq, hsub⟩

/-- Witness for C5 (amended): the counterexample input itself; the tail
`[jobBoston, jobDenver]` is a sublist of the store in store order. -/
theorem C5_witness :
    ∃ t, [jobBoston, jobDenver]
        = sqlJobsFor [("location", JVal.jstr "zzz"), ("semantic_query", JVal.jstr "engineer")]
            [jobBoston, jobDenver] ++ t
      ∧ List.Sublist t [jobBoston, jobDenver] :=
  C5_semantic_tail_in_store_order "q" (Except.ok llmC5) (Except.ok ⟨[["5", "4"]]⟩)
    [jobBoston, jobDenver]
    [("location", JVal.jstr "zzz"), ("semantic_query", JVal.jstr "engineer")]
    [jobBoston, jobDenver] rfl (by decide) rfl

/-! ## C3 — a vector-index failure is NOT absorbed -/

/-- **C3** (counterexample to the claim as stated).  Structured search
succeeds — with the fallback parse it returns the whole (one-row) table, as
the second conjunct shows — yet when the vector query raises, `search`
raises to its caller instead of returning the structured results: neither
orchestrator wraps `query_collection` in a `try`. -/
theorem C3_counterexample :
    servicesSearchJobs "python" (Except.error ()) (Except.error ()) [jobAustin1]
      = Except.error ()
    ∧ sqlJobsFor [("semantic_query", JVal.jstr "python")] [jobAustin1] = [jobAustin1] :=
  ⟨rfl, rfl⟩

/-- **C3** (amended).  An embedding-provider / vector-index exception
propagates out of `search` whenever the vector query is attempted (i.e. the
parsed `semantic_query` is truthy); the structured results are returned
unmodified only when the vector query is never attempted.  Both
implementations behave this way. -/
theorem C3_vector_failure_propagates :
    (∀ (rawQuery : String) (llm : Except Unit String) (db : List Job)
        (fields : List (String × JVal)),
        effectiveParsedServices rawQuery llm = JVal.jobj fields →
        pyTruthy (objGet fields "semantic_query") = true →
        servicesSearchJobs rawQuery llm (Except.error ()) db = Except.error ())
    ∧ (∀ (rawQuery : String) (llm : Except Unit String) (vec : Except Unit VectorReply)
        (db : List Job) (fields : List (String × JVal)),
        effectiveParsedServices rawQuery llm = JVal.jobj fields →
        pyTruthy (objGet fields "semantic_query") = false →
        servicesSearchJobs rawQuery llm vec db = Except.ok (sqlJobsFor fields db))
    ∧ (∀ (rawQuery txt : String) (db : List Job) (fields : List (String × JVal)),
        effectiveParsedBackend rawQuery txt = JVal.jobj fields →
        pyTruthy (objGet fields "semantic_query") = true →
        backendSearchJobs rawQuery (Except.ok txt) (Except.error ()) db = Except.error ())
    ∧ (∀ (rawQuery txt : String) (vec : Except Unit VectorReply)
        (db : List Job) (fields : List (String × JVal)),
        effectiveParsedBackend rawQuery txt = JVal.jobj fields →
        pyTruthy (objGet fields "semantic_query") = false →
        backendSearchJobs rawQuery (Except.ok txt) vec db = Except.ok (sqlJobsFor fields db)) := by
  refine ⟨?_, ?_, ?_, ?_⟩
  · intro rawQuery llm db fields hpq ht
    rw [servicesSearchJobs, hpq]
    dsimp only
    rw [if_pos ht]
  · intro rawQuery llm vec db fields hpq ht
    rw [servicesSearchJobs, hpq]
    dsimp only
    rw [if_neg (by rw [ht]; exact Bool.false_ne_true)]
  · intro rawQuery txt db fields hpq ht
    rw [backendSearchJobs]
    dsimp only [backendParseQuery]
    rw [hpq]
    dsimp only
    rw [if_pos ht]
  · intro rawQuery txt vec db fields hpq ht
    rw [backendSearchJobs]
    dsimp only [backendParseQuery]
    rw [hpq]
    dsimp only
    rw [if_neg (by rw [ht]; exact Bool.false_ne_true)]

/-- Witness for C3 (amended): a concrete search whose parse succeeds with a
truthy semantic query and whose vector call raises ends in an error. -/
theorem C3_witness :
    servicesSearchJobs "remote work" (Except.error ()) (Except.error ()) jobsDb
      = Except.error () :=
  C3_vector_failure_propagates.1 "remote work" (Except.error ()) jobsDb
    [("semantic_query", JVal.jstr "remote work")] rfl rfl

/-! ## C1 — the parse-failure fallback -/

/-- With no filter fields, `search_jobs` keeps every row. -/
theorem search_jobs_no_filters (db : List Job) :
    search_jobs db none none none none none = db := by
  rw [search_jobs]
  simp

/-- The structured search run with the simple fallback dict has no filters,
so it returns the whole table. -/
theorem sqlJobsFor_simpleFallback (rawQuery : String) (db : List Job) :
    sqlJobsFor [("semantic_query", JVal.jstr rawQuery)] db = db := by
  rw [sqlJobsFor]
  have h1 : getStrF [("semantic_query", JVal.jstr rawQuery)] "location" = none := rfl
  have h2 : getIntF [("semantic_query", JVal.jstr rawQuery)] "salary" = none := rfl
  have h3 : getIntF [("semantic_query", JVal.jstr rawQuery)] "experience" = none := rfl
  have h4 : getListF [("semantic_query", JVal.jstr rawQuery)] "skills" = none := rfl
  have h5 : getStrF [("semantic_query", JVal.jstr rawQuery)] "job_type" = none := rfl
  rw [h1, h2, h3, h4, h5, search_jobs_no_filters]

/-- **C1** (counterexample to the claim as stated).  In
`backend/search_engine.py` the call `parse_query(query)` sits *outside* the
`try` block, and `backend/ai_service.py::parse_query` has no exception
handler, so a network/API error from the language model is raised to the
caller of `search` — the fallback never engages, even though the vector
index was healthy and the store reachable. -/
theorem C1_counterexample :
    backendSearchJobs "python jobs" (Except.error ()) (Except.ok ⟨[[]]⟩) jobsDb
      = Except.error () := rfl

/-- **C1** (amended).  Malformed-JSON and empty model responses do degrade
gracefully: in the backend orchestrator any response whose fence-stripped
text fails `json.loads` yields the fallback `ParsedQuery` with every
structured field absent and `semantic_query` equal to the raw query — and
`search` then succeeds, returning the unfiltered table when the vector step
contributes nothing.  In the services orchestrator the fallback also covers
the network/API error case, because its `parse_query` catches every
exception.  Only the backend network/API error case (the counterexample)
escapes. -/
theorem C1_parse_failure_fallback :
    (∀ (rawQuery txt : String), json_loads (cleanResponse txt) = none →
        effectiveParsedBackend rawQuery txt
          = JVal.jobj [("semantic_query", JVal.jstr rawQuery)])
    ∧ (∀ (rawQuery txt : String) (db : List Job), json_loads (cleanResponse txt) = none →
        backendSearchJobs rawQuery (Except.ok txt) (Except.ok ⟨[[]]⟩) db = Except.ok db)
    ∧ (∀ rawQuery : String,
        effectiveParsedServices rawQuery (Except.error ())
          = JVal.jobj [("semantic_query", JVal.jstr rawQuery)])
    ∧ (∀ (rawQuery txt : String), json_loads txt = none →
        effectiveParsedServices rawQuery (Except.ok txt)
          = JVal.jobj [("semantic_query", JVal.jstr rawQuery)]) := by
  have hback : ∀ (rawQuery txt : String), json_loads (cleanResponse txt) = none →
      effectiveParsedBackend rawQuery txt
        = JVal.jobj [("semantic_query", JVal.jstr rawQuery)] := by
    intro rawQuery txt hparse
    rw [effectiveParsedBackend, hparse]
    rfl
  refine ⟨hback, ?_, ?_, ?_⟩
  · intro rawQuery txt db hparse
    rw [backendSearchJobs]
    dsimp only [backendParseQuery]
    rw [hback rawQuery txt hparse]
    dsimp only
    rw [sqlJobsFor_simpleFallback]
    by_cases ht : pyTruthy (objGet [("semantic_query", JVal.jstr rawQuery)] "semantic_query") = true
    · rw [if_pos ht]
      rfl
    · rw [if_neg ht]
  · intro rawQuery
    rfl
  · intro rawQuery txt hparse
    rw [effectiveParsedServices, servicesParseQuery, hparse]
    rfl

/-- Witness for C1 (amended): a malformed model response on the sample
table; the search succeeds and returns the whole table. -/
theorem C1_witness :
    backendSearchJobs "find python" (Except.ok "not json at all") (Except.ok ⟨[[]]⟩) jobsDb
      = Except.ok jobsDb :=
  C1_parse_failure_fallback.2.1 "find python" "not json at all" jobsDb rfl

/-! ## C9 — non-digit vector identifiers -/

theorem pyIntList_none : ∀ {inner : List String},
    (∃ s ∈ inner, pyIntParse s = none) → pyIntList inner = none := by
  intro inner
  induction inner with
  | nil => rintro ⟨s, hs, -⟩; simp at hs
  | cons a rest ih =>
    rintro ⟨s, hs, hnone⟩
    rw [pyIntList]
    rcases List.mem_cons.mp hs with rfl | hrest
    · rw [hnone]
    · match hp : pyIntParse a with
      | none => rfl
      | some n => rw [ih ⟨s, hrest, hnone⟩]

/-- Discarding the non-digit ids from the vector reply does not change the
services merge step: the `isdigit` filter is applied before conversion, and
an all-non-digit reply leaves `vector_ids` empty, which skips the lookup. -/
theorem servicesMergeStep_digit_filter (getId : α → Int) (byIds : List Int → List α)
    (sql : List α) (inner : List String) (rest : List (List String)) :
    servicesMergeStep getId byIds sql ⟨inner :: rest⟩
      = servicesMergeStep getId byIds sql ⟨inner.filter strIsDigit :: rest⟩ := by
  rw [servicesMergeStep, servicesMergeStep]
  dsimp only
  by_cases h1 : inner.isEmpty
  · have : inner = [] := by simpa using h1
    subst this
    rfl
  · have h1' : inner.isEmpty = false := by simpa using h1
    rw [if_neg (by rw [h1']; exact Bool.false_ne_true)]
    have hff : (inner.filter strIsDigit).filter strIsDigit = inner.filter strIsDigit := by
      rw [List.filter_filter]
      apply List.filter_congr
      intro a _
      rw [Bool.and_self]
    by_cases h2 : (inner.filter strIsDigit).isEmpty
    · have hnil : inner.filter strIsDigit = [] := by simpa using h2
      rw [hnil]
      simp
    · rw [if_neg h2, hff]

/-- Unfolding of the backend merge step on a non-empty ids list. -/
theorem backendMergeStep_cons [BEq α] (byIds : List Int → List α) (sql : List α)
    (inner : List String) (rest : List (List String)) :
    backendMergeStep byIds sql ⟨inner :: rest⟩
      = if inner.isEmpty then Except.ok sql
        else
          match pyIntList inner with
          | none => Except.error ()
          | some vids => Except.ok (mergeByDoc sql (byIds vids)) := rfl

/-- **C9** (counterexample to the claim as stated).  The vector id "-3"
contains a non-digit character, so `services` discards it — but in
`backend/search_engine.py` the conversion `int("-3")` does *not* raise: it
yields -3, the lookup finds no row, and the search returns normally instead
of erroring as the claim requires. -/
theorem C9_counterexample :
    backendSearchJobs "q" (Except.ok llmNoMatch) (Except.ok ⟨[["-3"]]⟩) [jobAustin1]
      = Except.ok []
    ∧ strIsDigit "-3" = false
    ∧ pyIntParse "-3" = some (-3) :=
  ⟨rfl, rfl, rfl⟩

/-- **C9** (amended).  (a) In `services/search_engine.py` every vector-match
identifier that is not a pure digit string is silently discarded before
entity resolution and never affects the returned list: the search result is
unchanged if the reply is pre-filtered to its digit-string ids.  (b) In
`backend/search_engine.py`, an identifier that is not a valid Python
integer literal (optional sign + digits) makes `int(...)` raise, so the
search errors; identifiers such as "-3" that contain a non-digit character
but are valid integer literals convert without error (the counterexample). -/
theorem C9_nondigit_ids :
    (∀ (rawQuery : String) (llm : Except Unit String) (db : List Job)
        (inner : List String) (rest : List (List String)),
        servicesSearchJobs rawQuery llm (Except.ok ⟨inner :: rest⟩) db
          = servicesSearchJobs rawQuery llm (Except.ok ⟨inner.filter strIsDigit :: rest⟩) db)
    ∧ (∀ (rawQuery txt : String) (db : List Job) (fields : List (String × JVal))
        (inner : List String) (rest : List (List String)),
        effectiveParsedBackend rawQuery txt = JVal.jobj fields →
        pyTruthy (objGet fields "semantic_query") = true →
        (∃ s ∈ inner, pyIntParse s = none) →
        backendSearchJobs rawQuery (Except.ok txt) (Except.ok ⟨inner :: rest⟩) db
          = Except.error ()) := by
  constructor
  · intro rawQuery llm db inner rest
    rw [servicesSearchJobs, servicesSearchJobs]
    match hp : effectiveParsedServices rawQuery llm with
    | JVal.jobj fields =>
      dsimp only
      by_cases ht : pyTruthy (objGet fields "semantic_query") = true
      · rw [if_pos ht, if_pos ht]
        exact congrArg Except.ok
          (servicesMergeStep_digit_filter Job.id (get_jobs_by_ids db) (sqlJobsFor fields db)
            inner rest)
      · rw [if_neg ht, if_neg ht]
    | JVal.jnull => rfl
    | JVal.jbool b => rfl
    | JVal.jint n => rfl
    | JVal.jstr s => rfl
    | JVal.jarr xs => rfl
  · intro rawQuery txt db fields inner rest hpq ht hbad
    rw [backendSearchJobs]
    dsimp only [backendParseQuery]
    rw [hpq]
    dsimp only
    rw [if_pos ht, backendMergeStep_cons]
    have hne : inner.isEmpty = false := by
      rcases hbad with ⟨s, hs, -⟩
      cases inner with
      | nil => simp at hs
      | cons a l => rfl
    rw [if_neg (by rw [hne]; exact Bool.false_ne_true)]
    rw [pyIntList_none hbad]

/-- Witness for C9 (amended): a vector id that is not an integer literal
makes the backend search raise. -/
theorem C9_witness :
    backendSearchJobs "q" (Except.ok llmNoMatch) (Except.ok ⟨[["abc"]]⟩) jobsDb
      = Except.error () :=
  C9_nondigit_ids.2 "q" llmNoMatch jobsDb
    [("location", JVal.jstr "zzz"), ("salary", JVal.jnull), ("experience", JVal.jnull),
     ("skills", JVal.jnull), ("job_type", JVal.jnull), ("semantic_query", JVal.jstr "engineer")]
    ["abc"] [] rfl rfl ⟨"abc", List.mem_singleton.mpr rfl, rfl⟩

/-! ## C6 — the structured job search as a filter conjunction -/

/-- "Contains as a case-insensitive substring" (spec wording, stated as an
explicit decomposition of the lowercased text). -/
def containsCI (hay pat : String) : Prop :=
  ∃ l r, lowerL hay.data = l ++ lowerL pat.data ++ r

/-- "Contains as a substring", literally (case-sensitive decomposition). -/
def containsCS (hay pat : String) : Prop :=
  ∃ l r, hay.data = l ++ pat.data ++ r

/-- The claim's per-row predicate, word for word: a present location is a
case-insensitive substring; a present salary satisfies
`minSalary ≥ salary ∨ maxSalary ≥ salary`; every present skill is a
substring of the skill representation; a present job type is a substring of
the employment type.  (The claim attaches no case-folding to skills or
job type, and no truthiness exception for `salary = 0`.) -/
def claimJobPred (j : Job) (location : Option String) (salary : Option Int)
    (skills : Option (List String)) (job_type : Option String) : Prop :=
  (∀ l, location = some l → containsCI j.location l)
  ∧ (∀ s, salary = some s → s ≤ j.minSalary ∨ s ≤ j.maxSalary)
  ∧ (∀ sk, skills = some sk → ∀ s ∈ sk, containsCS j.skills s)
  ∧ (∀ t, job_type = some t → containsCS j.employmentType t)

/-- The amended per-row predicate: all containment checks are
case-insensitive (MySQL `LIKE` under the default collation), a filter is
applied only when truthy (`0`, `""` and `[]` behave as absent, per the
Python `if filter:` guards), and the experience filter is the spec's
textual `"<n> years"` containment check on the description. -/
def specJobPred (j : Job) (location : Option String) (salary experience : Option Int)
    (skills : Option (List String)) (job_type : Option String) : Prop :=
  (∀ l, location = some l → l ≠ "" → containsCI j.location l)
  ∧ (∀ s, salary = some s → s ≠ 0 → (s ≤ j.minSalary ∨ s ≤ j.maxSalary))
  ∧ (∀ e, experience = some e → e ≠ 0 → containsCI j.description (toString e ++ " years"))
  ∧ (∀ sk, skills = some sk → ∀ s ∈ sk, containsCI j.skills s)
  ∧ (∀ t, job_type = some t → t ≠ "" → containsCI j.employmentType t)

theorem str_of_data_empty {s : String} (h : s.data.isEmpty = true) : s = "" := by
  cases s with
  | mk data =>
    cases data with
    | nil => rfl
    | cons c cs => simp at h

/-! ### LIKE-matching theory

`likeMatch` is characterized on wildcard-free patterns: `%p%` matches `s`
iff `p` occurs in `s` as a contiguous segment. -/

theorem likeMatchAux_succ_nil (f : Nat) (s : List Char) :
    likeMatchAux (f + 1) [] s = s.isEmpty := rfl

theorem likeMatchAux_succ_pct (f : Nat) (ps s : List Char) :
    likeMatchAux (f + 1) ('%' :: ps) s
      = (likeMatchAux f ps s
          || match s with
             | [] => false
             | _ :: rest => likeMatchAux f ('%' :: ps) rest) := rfl

theorem likeMatchAux_succ_lit (f : Nat) {a : Char} (ps s : List Char) (ha : ¬a = '%') :
    likeMatchAux (f + 1) (a :: ps) s
      = (match s with
         | [] => false
         | c :: rest => (if a = '_' then true else a == c) && likeMatchAux f ps rest) := by
  show (if a = '%' then _ else _) = _
  rw [if_neg ha]

theorem likeMatchAux_fuel : ∀ fuel p s, p.length + s.length ≤ fuel →
    likeMatchAux fuel p s = likeMatch p s := by
  intro fuel
  induction fuel using Nat.strong_induction_on with
  | _ fuel ih =>
    intro p s hle
    match fuel, p, s with
    | fuel, [], s =>
      cases fuel with
      | zero =>
        cases s with
        | nil => rfl
        | cons c rest => simp at hle
      | succ f =>
        rw [likeMatchAux_succ_nil]
        cases s with
        | nil => rfl
        | cons c rest => rfl
    | 0, a :: ps, s => simp at hle
    | f + 1, a :: ps, s =>
      have hle' : ps.length + s.length + 1 ≤ f + 1 := by
        simp only [List.length_cons] at hle
        omega
      by_cases ha : a = '%'
      · subst ha
        cases s with
        | nil =>
          show (likeMatchAux f ps [] || false) = likeMatch ('%' :: ps) []
          have hR : likeMatch ('%' :: ps) [] = (likeMatchAux ps.length ps [] || false) := rfl
          rw [hR, ih f (by omega) ps [] (by omega),
            ih ps.length (by omega) ps [] (by simp)]
        | cons c rest =>
          show (likeMatchAux f ps (c :: rest) || likeMatchAux f ('%' :: ps) rest)
            = likeMatch ('%' :: ps) (c :: rest)
          have hR : likeMatch ('%' :: ps) (c :: rest)
              = (likeMatchAux (ps.length + 1 + rest.length) ps (c :: rest)
                  || likeMatchAux (ps.length + 1 + rest.length) ('%' :: ps) rest) := rfl
          have hbound : ps.length + rest.length + 2 ≤ f + 1 := by
            simp only [List.length_cons] at hle'
            omega
          have hlen : ps.length + (c :: rest).length ≤ f := by
            simp only [List.length_cons]
            omega
          have hlen2 : ('%' :: ps).length + rest.length ≤ f := by
            simp only [List.length_cons]
            omega
          rw [hR, ih f (by omega) ps (c :: rest) hlen,
            ih f (by omega) ('%' :: ps) rest hlen2,
            ih (ps.length + 1 + rest.length) (by omega) ps (c :: rest)
              (by simp only [List.length_cons]; omega),
            ih (ps.length + 1 + rest.length) (by omega) ('%' :: ps) rest
              (by simp only [List.length_cons]; omega)]
      · cases s with
        | nil =>
          rw [likeMatchAux_succ_lit f ps [] ha]
          have hR : likeMatch (a :: ps) []
              = likeMatchAux (ps.length + 1) (a :: ps) [] := rfl
          rw [hR, likeMatchAux_succ_lit ps.length ps [] ha]
        | cons c rest =>
          rw [likeMatchAux_succ_lit f ps (c :: rest) ha]
          have hR : likeMatch (a :: ps) (c :: rest)
              = likeMatchAux (ps.length + 1 + rest.length + 1) (a :: ps) (c :: rest) := by
            rw [likeMatch]
            have : (a :: ps).length + (c :: rest).length
                = ps.length + 1 + rest.length + 1 := by
              simp only [List.length_cons]
              omega
            rw [this]
          have hbound : ps.length + rest.length + 2 ≤ f + 1 := by
            simp only [List.length_cons] at hle'
            omega
          have hlen : ps.length + rest.length ≤ f := by omega
          rw [hR, likeMatchAux_succ_lit (ps.length + 1 + rest.length) ps (c :: rest) ha]
          dsimp only
          rw [ih f (by omega) ps rest hlen,
            ih (ps.length + 1 + rest.length) (by omega) ps rest (by omega)]

theorem likeMatch_nil_left (s : List Char) : likeMatch [] s = s.isEmpty := by
  cases s with
  | nil => rfl
  | cons c rest => rfl

/-- A leading `%` matches an arbitrary prefix. -/
theorem likeMatch_pct_iff {ps : List Char} : ∀ s : List Char,
    (likeMatch ('%' :: ps) s = true ↔ ∃ k, k ≤ s.length ∧ likeMatch ps (s.drop k) = true) := by
  intro s
  induction s with
  | nil =>
    have hL : likeMatch ('%' :: ps) [] = (likeMatchAux ps.length ps [] || false) := rfl
    rw [hL, likeMatchAux_fuel ps.length ps [] (by simp)]
    constructor
    · intro h
      exact ⟨0, Nat.le_refl 0, by simpa using h⟩
    · rintro ⟨k, hk, h⟩
      have : k = 0 := Nat.le_zero.mp hk
      subst this
      simpa using h
  | cons c rest ih =>
    have hL : likeMatch ('%' :: ps) (c :: rest)
        = (likeMatchAux (ps.length + 1 + rest.length) ps (c :: rest)
            || likeMatchAux (ps.length + 1 + rest.length) ('%' :: ps) rest) := rfl
    rw [hL,
      likeMatchAux_fuel (ps.length + 1 + rest.length) ps (c :: rest)
        (by simp only [List.length_cons]; omega),
      likeMatchAux_fuel (ps.length + 1 + rest.length) ('%' :: ps) rest
        (by simp only [List.length_cons]; omega),
      Bool.or_eq_true]
    constructor
    · rintro (h | h)
      · exact ⟨0, Nat.zero_le _, by simpa using h⟩
      · rcases ih.mp h with ⟨k, hk, hmatch⟩
        exact ⟨k + 1, by simp only [List.length_cons]; omega, by simpa using hmatch⟩
    · rintro ⟨k, hk, hmatch⟩
      cases k with
      | zero => exact Or.inl (by simpa using hmatch)
      | succ k' =>
        refine Or.inr (ih.mpr ⟨k', ?_, by simpa using hmatch⟩)
        simp only [List.length_cons] at hk
        omega

/-- A wildcard-free pattern followed by `%` matches exactly the strings it
prefixes. -/
theorem likeMatch_lit_pct_iff : ∀ (p : List Char),
    p.all (fun c => !(c == '%') && !(c == '_')) = true →
    ∀ s : List Char, (likeMatch (p ++ ['%']) s = true ↔ ∃ r, s = p ++ r) := by
  intro p
  induction p with
  | nil =>
    intro _ s
    simp only [List.nil_append]
    constructor
    · intro _
      exact ⟨s, rfl⟩
    · intro _
      rcases @likeMatch_pct_iff [] s with ⟨-, hmpr⟩
      exact hmpr ⟨s.length, Nat.le_refl _, by rw [List.drop_length, likeMatch_nil_left]; rfl⟩
  | cons a p' ih =>
    intro hall s
    simp only [List.all_cons, Bool.and_eq_true, Bool.not_eq_true', beq_eq_false_iff_ne,
      ne_eq] at hall
    have ha : ¬a = '%' := hall.1.1
    have ha2 : ¬a = '_' := hall.1.2
    have hall' : p'.all (fun c => !(c == '%') && !(c == '_')) = true := hall.2
    cases s with
    | nil =>
      have hL : likeMatch ((a :: p') ++ ['%']) [] = false := by
        have h0 : likeMatch ((a :: p') ++ ['%']) []
            = likeMatchAux ((p' ++ ['%']).length + 1) (a :: (p' ++ ['%'])) [] := rfl
        rw [h0, likeMatchAux_succ_lit (p' ++ ['%']).length (p' ++ ['%']) [] ha]
      rw [hL]
      simp
    | cons c rest =>
      have hL : likeMatch ((a :: p') ++ ['%']) (c :: rest)
          = ((if a = '_' then true else a == c)
              && likeMatchAux ((p' ++ ['%']).length + 1 + rest.length) (p' ++ ['%']) rest) := by
        have h0 : likeMatch ((a :: p') ++ ['%']) (c :: rest)
            = likeMatchAux ((p' ++ ['%']).length + 1 + rest.length + 1)
                (a :: (p' ++ ['%'])) (c :: rest) := by
          rw [likeMatch]
          have : ((a :: p') ++ ['%']).length + (c :: rest).length
              = (p' ++ ['%']).length + 1 + rest.length + 1 := by
            simp only [List.length_cons, List.length_append]
            omega
          rw [this]
          rfl
        rw [h0, likeMatchAux_succ_lit ((p' ++ ['%']).length + 1 + rest.length)
          (p' ++ ['%']) (c :: rest) ha]
      rw [hL, likeMatchAux_fuel ((p' ++ ['%']).length + 1 + rest.length) (p' ++ ['%']) rest
        (by omega), if_neg ha2, Bool.and_eq_true, beq_iff_eq, ih hall' rest]
      constructor
      · rintro ⟨rfl, r, rfl⟩
        exact ⟨r, rfl⟩
      · rintro ⟨r, hr⟩
        simp only [List.cons_append, List.cons.injEq] at hr
        exact ⟨hr.1.symm, r, hr.2⟩

/-- The heart of the LIKE model: for a pattern free of `%` and `_`, matching
`%p%` is exactly contiguous containment of `p`. -/
theorem likeMatch_pct_pct_iff {p : List Char}
    (hp : p.all (fun c => !(c == '%') && !(c == '_')) = true) (s : List Char) :
    likeMatch ('%' :: (p ++ ['%'])) s = true ↔ ∃ l r, s = l ++ p ++ r := by
  rw [likeMatch_pct_iff s]
  constructor
  · rintro ⟨k, hk, hmatch⟩
    rcases (likeMatch_lit_pct_iff p hp (s.drop k)).mp hmatch with ⟨r, hr⟩
    refine ⟨s.take k, r, ?_⟩
    conv_lhs => rw [← List.take_append_drop k s]
    rw [hr, List.append_assoc]
  · rintro ⟨l, r, rfl⟩
    refine ⟨l.length, by simp only [List.length_append]; omega, ?_⟩
    rw [List.append_assoc, List.drop_left]
    exact (likeMatch_lit_pct_iff p hp (p ++ r)).mpr ⟨r, rfl⟩

theorem char_toNat_ofNat {n : Nat} (h : n.isValidChar) : (Char.ofNat n).toNat = n := by
  rw [Char.ofNat, dif_pos h]
  simp [Char.toNat, Char.ofNatAux, UInt32.toNat, UInt32.ofNatCore]

/-- `Char.toLower` only moves uppercase letters into the lowercase range, so
equality with a character that is in neither range is unaffected. -/
theorem toLower_eq_of_not_alpha {c w : Char}
    (hw1 : ¬(65 ≤ w.toNat ∧ w.toNat ≤ 90)) (hw2 : ¬(97 ≤ w.toNat ∧ w.toNat ≤ 122)) :
    Char.toLower c = w ↔ c = w := by
  simp only [Char.toLower]
  by_cases hc : c.toNat ≥ 65 ∧ c.toNat ≤ 90
  · rw [if_pos hc]
    constructor
    · intro h
      exfalso
      have hval : (c.toNat + 32).isValidChar := Or.inl (by omega)
      have h2 := congrArg Char.toNat h
      rw [char_toNat_ofNat hval] at h2
      exact hw2 (by omega)
    · intro h
      exfalso
      subst h
      exact hw1 hc
  · rw [if_neg hc]

/-- Case folding preserves LIKE-plainness. -/
theorem lowerL_likePlain {s : String} (h : likePlain s = true) :
    (lowerL s.data).all (fun c => !(c == '%') && !(c == '_')) = true := by
  rw [List.all_eq_true]
  intro x hx
  rcases List.mem_map.mp hx with ⟨c0, hc0, rfl⟩
  rw [likePlain, List.all_eq_true] at h
  have hc := h c0 hc0
  simp only [Bool.and_eq_true, Bool.not_eq_true', beq_eq_false_iff_ne, ne_eq] at hc
  have h1 : ¬ Char.toLower c0 = '%' := fun he =>
    hc.1.1 ((toLower_eq_of_not_alpha (by decide) (by decide)).mp he)
  have h2 : ¬ Char.toLower c0 = '_' := fun he =>
    hc.1.2 ((toLower_eq_of_not_alpha (by decide) (by decide)).mp he)
  simp [h1, h2]

/-- For a LIKE-plain filter, `column LIKE '%filter%'` is exactly
case-insensitive substring containment. -/
theorem sqlLike_iff_containsCI_plain {hay pat : String} (h : likePlain pat = true) :
    sqlLike hay pat = true ↔ containsCI hay pat := by
  rw [sqlLike, containsCI]
  exact likeMatch_pct_pct_iff (lowerL_likePlain h) (lowerL hay.data)

/-! ### The experience pattern `"<n> years"` is always LIKE-plain -/

theorem digitChar_plain (m : Nat) :
    (!(Nat.digitChar m == '%') && !(Nat.digitChar m == '_')
      && !(Nat.digitChar m == '\\')) = true := by
  by_cases h : m < 16
  · interval_cases m <;> rfl
  · unfold Nat.digitChar
    repeat rw [if_neg (by omega)]
    rfl

theorem toDigitsCore_mem (b : Nat) :
    ∀ (fuel n : Nat) (ds : List Char) (c : Char),
      c ∈ Nat.toDigitsCore b fuel n ds → c ∈ ds ∨ ∃ m, c = Nat.digitChar m := by
  intro fuel
  induction fuel with
  | zero => intro n ds c hc; exact Or.inl hc
  | succ f ih =>
    intro n ds c hc
    simp only [Nat.toDigitsCore] at hc
    by_cases hnb : n / b = 0
    · rw [if_pos hnb] at hc
      rcases List.mem_cons.mp hc with rfl | hmem
      · exact Or.inr ⟨n % b, rfl⟩
      · exact Or.inl hmem
    · rw [if_neg hnb] at hc
      rcases ih (n / b) (Nat.digitChar (n % b) :: ds) c hc with hmem | hd
      · rcases List.mem_cons.mp hmem with rfl | hmem'
        · exact Or.inr ⟨n % b, rfl⟩
        · exact Or.inl hmem'
      · exact Or.inr hd

theorem natRepr_plain (n : Nat) : likePlain (Nat.repr n) = true := by
  rw [likePlain, List.all_eq_true]
  intro c hc
  have hdata : (Nat.repr n).data = Nat.toDigits 10 n := rfl
  rw [hdata, Nat.toDigits] at hc
  rcases toDigitsCore_mem 10 (n + 1) n [] c hc with h | ⟨m, rfl⟩
  · simp at h
  · exact digitChar_plain m

theorem intString_plain (e : Int) : likePlain (toString e ++ " years") = true := by
  have hy : ∀ x ∈ (" years" : String).data,
      (!(x == '%') && !(x == '_') && !(x == '\\')) = true := by decide
  have hint : likePlain (toString e) = true := by
    cases e with
    | ofNat m => exact natRepr_plain m
    | negSucc m =>
      have h2 : toString (Int.negSucc m) = "-" ++ Nat.repr (m + 1) := rfl
      rw [h2, likePlain, List.all_eq_true]
      intro x hx
      rw [String.data_append] at hx
      rcases List.mem_append.mp hx with hx' | hx'
      · have : x = '-' := by simpa using hx'
        rw [this]
        rfl
      · have := natRepr_plain (m + 1)
        rw [likePlain, List.all_eq_true] at this
        exact this x hx'
  rw [likePlain, List.all_eq_true]
  intro c hc
  rw [String.data_append] at hc
  rcases List.mem_append.mp hc with h | h
  · rw [likePlain, List.all_eq_true] at hint
    exact hint c h
  · exact hy c h

/-- A job with capitalised skills text. -/
def jobPython : Job :=
  ⟨21, 104, "Developer", "Remote", "full-time", "write code", "Python", 1000, 2000⟩

/-- **C6** (counterexample to the claim as stated).  The skills conjunct of
the claim is case-sensitive "contains as a substring", but the SQL `LIKE`
comparison is case-insensitive: for the filter `skills = ["python"]`,
`search_jobs` keeps the row whose skills text is `"Python"`, which the
claim's predicate excludes. -/
theorem C6_counterexample :
    search_jobs [jobPython] none none none (some ["python"]) none = [jobPython]
    ∧ ¬ claimJobPred jobPython none none (some ["python"]) none := by
  refine ⟨rfl, ?_⟩
  rintro ⟨-, -, hsk, -⟩
  rcases hsk ["python"] rfl "python" (List.mem_singleton.mpr rfl) with ⟨l, r, heq⟩
  have hsub : hasSub "python".data jobPython.skills.data = true :=
    hasSub_iff.mpr ⟨l, r, heq⟩
  exact absurd hsub (by decide)

theorem locFilter_iff (j : Job) (location : Option String) :
    (∀ x, location = some x → likePlain x = true) →
    (((match location with
      | none => true
      | some l => if l.data.isEmpty then true else sqlLike j.location l) = true)
    ↔ (∀ l, location = some l → l ≠ "" → containsCI j.location l)) := by
  cases location with
  | none => intro _; simp
  | some l =>
    intro hplain
    by_cases he : l.data.isEmpty
    · rw [str_of_data_empty he]
      simp
    · have he' : l.data.isEmpty = false := by simpa using he
      have hne : l ≠ "" := by
        intro hl
        rw [hl] at he'
        simp at he'
      simp only [he', Bool.false_eq_true, if_false]
      rw [sqlLike_iff_containsCI_plain (hplain l rfl)]
      constructor
      · intro h l' hl' _
        cases Option.some.injEq l l' ▸ hl' with
        | refl => exact h
      · intro h
        exact h l rfl hne

theorem salFilter_iff (j : Job) (salary : Option Int) :
    ((match salary with
      | none => true
      | some s => if s == 0 then true
                  else (decide (s ≤ j.minSalary) || decide (s ≤ j.maxSalary))) = true)
    ↔ (∀ s, salary = some s → s ≠ 0 → (s ≤ j.minSalary ∨ s ≤ j.maxSalary)) := by
  cases salary with
  | none => simp
  | some s =>
    by_cases hz : s = 0
    · subst hz
      simp
    · have hz' : (s == 0) = false := by simpa using hz
      simp [hz', hz]

theorem expFilter_iff (j : Job) (experience : Option Int) :
    ((match experience with
      | none => true
      | some e => if e == 0 then true else sqlLike j.description (toString e ++ " years")) = true)
    ↔ (∀ e, experience = some e → e ≠ 0 →
        containsCI j.description (toString e ++ " years")) := by
  cases experience with
  | none => simp
  | some e =>
    by_cases hz : e = 0
    · subst hz
      simp
    · have hz' : (e == 0) = false := by simpa using hz
      simp [hz', hz, sqlLike_iff_containsCI_plain (intString_plain e)]

theorem skFilter_iff (j : Job) (skills : Option (List String)) :
    (∀ xs, skills = some xs → ∀ x ∈ xs, likePlain x = true) →
    (((match skills with
      | none => true
      | some sk => if sk.isEmpty then true else sk.all (fun s => sqlLike j.skills s)) = true)
    ↔ (∀ sk, skills = some sk → ∀ s ∈ sk, containsCI j.skills s)) := by
  cases skills with
  | none => intro _; simp
  | some sk =>
    intro hplain
    by_cases he : sk.isEmpty
    · have : sk = [] := by simpa using he
      subst this
      simp
    · have he' : sk.isEmpty = false := by simpa using he
      simp only [he', Bool.false_eq_true, if_false, List.all_eq_true]
      have hconv : (∀ x ∈ sk, sqlLike j.skills x = true) ↔ (∀ x ∈ sk, containsCI j.skills x) := by
        constructor
        · intro h x hx
          exact (sqlLike_iff_containsCI_plain (hplain sk rfl x hx)).mp (h x hx)
        · intro h x hx
          exact (sqlLike_iff_containsCI_plain (hplain sk rfl x hx)).mpr (h x hx)
      rw [hconv]
      constructor
      · intro h sk' hsk'
        cases Option.some.injEq sk sk' ▸ hsk' with
        | refl => exact h
      · intro h
        exact h sk rfl

theorem jtFilter_iff (j : Job) (job_type : Option String) :
    (∀ x, job_type = some x → likePlain x = true) →
    (((match job_type with
      | none => true
      | some t => if t.data.isEmpty then true else sqlLike j.employmentType t) = true)
    ↔ (∀ t, job_type = some t → t ≠ "" → containsCI j.employmentType t)) := by
  cases job_type with
  | none => intro _; simp
  | some t =>
    intro hplain
    by_cases he : t.data.isEmpty
    · rw [str_of_data_empty he]
      simp
    · have he' : t.data.isEmpty = false := by simpa using he
      have hne : t ≠ "" := by
        intro hl
        rw [hl] at he'
        simp at he'
      simp only [he', Bool.false_eq_true, if_false]
      rw [sqlLike_iff_containsCI_plain (hplain t rfl)]
      constructor
      · intro h t' ht' _
        cases Option.some.injEq t t' ▸ ht' with
        | refl => exact h
      · intro h
        exact h t rfl hne

/-- A job whose skills text differs from the filter only at a `-` versus
`_` — the live `_` wildcard makes the filter match it anyway. -/
def jobSkl : Job :=
  ⟨22, 104, "ML Engineer", "Remote", "full-time", "models", "scikit-learn", 1000, 2000⟩

/-- **C6** (amended).  For filters containing none of the characters that
are special in a LIKE pattern (`%`, `_`, `\`), `search_jobs` keeps exactly
the rows of the store that satisfy the conjunction of the per-filter
predicates — case-insensitive substring containment for
location/skills/job type, the salary range disjunction, and the textual
experience check — where each filter constrains only when it is truthy;
with zero present filters it returns the whole table.  The final conjunct
records why the restriction is necessary: the filter value is interpolated
into the LIKE pattern, so the `_` in the filter `"scikit_learn"` is a live
single-character wildcard and the row with skills text `"scikit-learn"` is
kept even though the filter is not a substring of it. -/
theorem C6_structured_search_conjunction :
    (∀ (db : List Job) (location : Option String) (salary experience : Option Int)
        (skills : Option (List String)) (job_type : Option String) (j : Job),
        (∀ x, location = some x → likePlain x = true) →
        (∀ xs, skills = some xs → ∀ x ∈ xs, likePlain x = true) →
        (∀ x, job_type = some x → likePlain x = true) →
        (j ∈ search_jobs db location salary experience skills job_type
          ↔ j ∈ db ∧ specJobPred j location salary experience skills job_type))
    ∧ (∀ db : List Job, search_jobs db none none none none none = db)
    ∧ (search_jobs [jobSkl] none none none (some ["scikit_learn"]) none = [jobSkl]
        ∧ ¬ containsCI jobSkl.skills "scikit_learn") := by
  refine ⟨?_, search_jobs_no_filters, rfl, ?_⟩
  · intro db location salary experience skills job_type j hploc hpsk hpjt
    rw [search_jobs, List.mem_filter]
    apply and_congr_right
    intro _
    rw [specJobPred]
    simp only [Bool.and_eq_true]
    constructor
    · rintro ⟨⟨⟨⟨h1, h2⟩, h3⟩, h4⟩, h5⟩
      exact ⟨(locFilter_iff j location hploc).mp h1, (salFilter_iff j salary).mp h2,
        (expFilter_iff j experience).mp h3, (skFilter_iff j skills hpsk).mp h4,
        (jtFilter_iff j job_type hpjt).mp h5⟩
    · rintro ⟨h1, h2, h3, h4, h5⟩
      exact ⟨⟨⟨⟨(locFilter_iff j location hploc).mpr h1, (salFilter_iff j salary).mpr h2⟩,
        (expFilter_iff j experience).mpr h3⟩, (skFilter_iff j skills hpsk).mpr h4⟩,
        (jtFilter_iff j job_type hpjt).mpr h5⟩
  · rintro ⟨l, r, heq⟩
    have hsub : hasSub (lowerL "scikit_learn".data) (lowerL jobSkl.skills.data) = true :=
      hasSub_iff.mpr ⟨l, r, heq⟩
    exact absurd hsub (by decide)

/-- Witness for C6 (amended): a concrete row passes the concrete
wildcard-free filters exactly as the predicate says. -/
theorem C6_witness :
    jobAustin1 ∈ search_jobs jobsDb (some "austin") (some 100000) none (some ["PYTHON"]) none
    ∧ (jobAustin1 ∈ jobsDb
        ∧ specJobPred jobAustin1 (some "austin") (some 100000) none (some ["PYTHON"]) none) :=
  ⟨by decide,
   (C6_structured_search_conjunction.1 jobsDb (some "austin") (some 100000) none
     (some ["PYTHON"]) none jobAustin1
     (by intro x hx; cases hx; decide)
     (by intro xs hxs; cases hxs; intro x hx; fin_cases hx <;> decide)
     (by intro x hx; cases hx)).mp (by decide)⟩

/-! ## C8 — markdown-fence stripping before JSON parsing -/

/-- A fenced payload whose embedded string value contains a triple-backtick
run. -/
def jC8 : String := "\x7b\"semantic_query\": \"a```b\"\x7d"

/-- **C8** (counterexample to the claim as stated).  The stripping is done
with a global `str.replace`, which also deletes triple-backtick runs
*inside* the JSON payload: `jC8` is valid JSON whose `semantic_query` is
`"a```b"`, but the backend parsing stage turns the fenced response into a
ParsedQuery whose `semantic_query` is `"ab"` — it parses without the
fallback, yet is *not* the same ParsedQuery the unfenced JSON denotes. -/
theorem C8_counterexample :
    json_loads jC8 = some (JVal.jobj [("semantic_query", JVal.jstr "a```b")])
    ∧ effectiveParsedBackend "q" ("```json" ++ jC8 ++ "```")
        = JVal.jobj [("semantic_query", JVal.jstr "ab")]
    ∧ ("a```b" : String) ≠ "ab" :=
  ⟨rfl, rfl, by decide⟩

/-- **C8** (amended).  For every model response of the fenced form
```` ```json J ``` ```` whose payload `J` is valid JSON containing no
triple-backtick run, the backend parsing stage strips the fence markers
cleanly and yields exactly the value the unfenced JSON denotes — the
parse-failure fallback is not triggered. -/
theorem C8_fenced_response_parses :
    ∀ (rawQuery J : String) (v : JVal),
      hasSub "```".data J.data = false →
      json_loads J = some v →
      effectiveParsedBackend rawQuery ("```json" ++ J ++ "```") = v := by
  intro rawQuery J v hns hj
  rw [effectiveParsedBackend, cleanResponse_fenced hns, hj]

/-- Witness for C8 (amended): a concrete fenced response decodes to the
payload's object, not to the fallback. -/
theorem C8_witness :
    effectiveParsedBackend "find jobs"
        ("```json" ++ "\x7b\"semantic_query\": \"find jobs\"\x7d" ++ "```")
      = JVal.jobj [("semantic_query", JVal.jstr "find jobs")] :=
  C8_fenced_response_parses "find jobs" "\x7b\"semantic_query\": \"find jobs\"\x7d"
    (JVal.jobj [("semantic_query", JVal.jstr "find jobs")]) (by decide) rfl

end HybridSearch
